import Mathlib

/-!
# Citelet: publisher detection, reference extraction and the extension workflow

A shallow embedding of `static/js/citelet.js` (publisher rules, head and cited
reference extractors) and of `chrome-ext/citelet.ext.js` (the deferred chain
`init → scrape → valid → stored → confirmed → send → store`).

Conventions of the embedding

* JavaScript primitive values are `JVal`; `undefined` is `JVal.undef`.
* The page is a `Document`: the answers of the jQuery selector engine to the
  selector strings the code passes to `$`, plus the sibling navigation the
  code uses.  The code never builds or changes the page.
* Regular expressions are a small syntax tree `Re` with a backtracking matcher
  that follows the priority order of the ECMAScript matcher (leftmost start,
  first alternative first, lazy star shortest first).
* Plain objects (`{}`) are association lists of their own properties; the
  `in` operator and property reads also see the members inherited from
  `Object.prototype`.
-/

namespace Citelet

/-! ## JavaScript values -/

/-- Primitive JavaScript values. -/
inductive JVal where
  | undef
  | null
  | bool (b : Bool)
  | num (n : Int)
  | str (s : String)
  deriving DecidableEq

/-- ToBoolean: what `if (v)` tests. -/
def JVal.truthy : JVal → Bool
  | .undef => false
  | .null => false
  | .bool b => b
  | .num n => decide (n ≠ 0)
  | .str s => decide (s ≠ "")

/-- Strict equality `v === w` on primitives. -/
def JVal.strict_eq (v w : JVal) : Bool := decide (v = w)

/-- Own and inherited property names every plain object `{}` answers to:
the members of `Object.prototype`. -/
def Object_prototype_keys : List String :=
  ["constructor", "hasOwnProperty", "isPrototypeOf", "propertyIsEnumerable",
   "toLocaleString", "toString", "valueOf", "__proto__",
   "__defineGetter__", "__defineSetter__", "__lookupGetter__", "__lookupSetter__"]

/-- Own property read on an association list (first binding wins). -/
def own_get {α : Type} (o : List (String × α)) (k : String) : Option α :=
  match o with
  | [] => none
  | (k', v) :: rest => if k' = k then some v else own_get rest k

/-- The JavaScript operator `k in o` for a plain object `o`:
own properties and the members of `Object.prototype`. -/
def js_in {α : Type} (k : String) (o : List (String × α)) : Bool :=
  (own_get o k).isSome || decide (k ∈ Object_prototype_keys)

/-! ## Regular expressions -/

/-- Syntax of the regular expressions that occur in the sources. -/
inductive Re where
  | eps
  | chr (c : Char)
  | dot
  | seq (a b : Re)
  | alt (a b : Re)
  | lazyStar (a : Re)
  | notAhead (a : Re)
  | bol
  | eol

/-- The pattern that matches the characters of `s` one after the other. -/
def Re.lit (s : String) : Re :=
  s.data.foldr (fun c r => Re.seq (Re.chr c) r) Re.eps

/-- Canonicalize of the matcher: with the `i` flag characters are compared
after upper-casing (the patterns of the sources are ASCII). -/
def canon (ignoreCase : Bool) (c : Char) : Char :=
  if ignoreCase then c.toUpper else c

/-- Line terminators, which `.` does not match. -/
def isLineTerminator (c : Char) : Bool :=
  decide (c.toNat = 10) || decide (c.toNat = 13) ||
  decide (c.toNat = 8232) || decide (c.toNat = 8233)

/-- Lazy iteration `a*?`: first no further iteration, then one more; an
iteration that consumes nothing is rejected. -/
def lazyIter (step : Nat × List Char → List (Nat × List Char)) :
    Nat → Nat × List Char → List (Nat × List Char)
  | 0, c => [c]
  | fuel + 1, c =>
    c :: ((step c).filter (fun c' => decide (c'.2.length < c.2.length))).flatMap
      (lazyIter step fuel)

/-- All ways `r` matches at a cursor (index, remaining input), as the cursors
after the match, in the order the backtracking matcher tries them. -/
def Re.run (ic : Bool) : Re → Nat × List Char → List (Nat × List Char)
  | .eps, c => [c]
  | .chr a, c =>
    match c.2 with
    | [] => []
    | x :: xs => if canon ic x = canon ic a then [(c.1 + 1, xs)] else []
  | .dot, c =>
    match c.2 with
    | [] => []
    | x :: xs => if isLineTerminator x then [] else [(c.1 + 1, xs)]
  | .seq a b, c => (Re.run ic a c).flatMap (fun c' => Re.run ic b c')
  | .alt a b, c => Re.run ic a c ++ Re.run ic b c
  | .lazyStar a, c => lazyIter (fun c' => Re.run ic a c') c.2.length c
  | .notAhead a, c => if (Re.run ic a c).isEmpty then [c] else []
  | .bol, c => if c.1 = 0 then [c] else []
  | .eol, c => if c.2.isEmpty then [c] else []

/-- A regular expression object without the `g` flag. -/
structure RegExp where
  source : Re
  ignoreCase : Bool := false

/-- First match searching from index `p`: start and end index. -/
def RegExp.execFrom (r : RegExp) : Nat → List Char → Option (Nat × Nat)
  | p, [] => ((r.source.run r.ignoreCase (p, [])).head?).map (fun e => (p, e.1))
  | p, x :: xs =>
    match (r.source.run r.ignoreCase (p, x :: xs)).head? with
    | some e => some (p, e.1)
    | none => RegExp.execFrom r (p + 1) xs

/-- Result of `r.exec(s)` reduced to the matched span. -/
def RegExp.exec (r : RegExp) (s : String) : Option (Nat × Nat) :=
  r.execFrom 0 s.data

/-- Source `r.test(s)`. -/
def RegExp.test (r : RegExp) (s : String) : Bool :=
  (r.exec s).isSome

/-- Source `r.test(v)` for a value that may be `undefined` (`none`): the
argument is converted with ToString first. -/
def RegExp.test_opt (r : RegExp) (v : Option String) : Bool :=
  match v with
  | none => r.test "undefined"
  | some s => r.test s

/-- Source `s.replace(r, '')` for `r` without the `g` flag: the first match
is removed. -/
def str_replace (s : String) (r : RegExp) : String :=
  match r.exec s with
  | none => s
  | some (b, e) => String.mk (s.data.take b ++ s.data.drop e)

/-! ## The page -/

/-- An element, reduced to the properties the sources read. -/
structure Node where
  /-- Position among the elements of the page (element identity). -/
  id : Nat := 0
  /-- DOM property `name` (the attribute, `''` when absent). -/
  name : String := ""
  /-- DOM property `content`. -/
  content : String := ""
  innerHTML : String := ""
  innerText : String := ""
  /-- What jQuery `.text()` yields for this element. -/
  textContent : String := ""
  className : String := ""
  /-- Result of `.attr('href')`, `none` for `undefined`. -/
  href : Option String := none
  deriving DecidableEq

/-- The address of a page.  `window.location.href` is always an absolute
URL: a scheme, a colon, and the rest. -/
structure Location where
  scheme : String
  rest : String
  deriving DecidableEq

/-- Source `window.location.href`. -/
def Location.href (l : Location) : String :=
  l.scheme ++ ":" ++ l.rest

/-- A jQuery object: the matched elements in document order. -/
abbrev JQuery := List Node

/-- The loaded page as seen through jQuery. -/
structure Document where
  /-- Selector engine `$(selector)`. -/
  select : String → JQuery
  /-- For an element: its immediately following sibling, if it matches the
  selector (one element of `.next(selector)`). -/
  next : Node → String → Option Node := fun _ _ => none
  /-- For an element: its parent, if it matches the selector. -/
  parent : Node → String → Option Node := fun _ _ => none
  /-- For an element: its following siblings that match the selector. -/
  nextAll : Node → String → JQuery := fun _ _ => []
  /-- For an element: its children that match the selector. -/
  children : Node → String → JQuery := fun _ _ => []
  /-- Address of the page. -/
  location : Location := { scheme := "http", rest := "//127.0.0.1/" }

/-- Source `jq.html()`: inner HTML of the first element, `undefined` when
the set is empty. -/
def jq_html (jq : JQuery) : Option String :=
  match jq with
  | [] => none
  | n :: _ => some n.innerHTML

/-- Source `jq.text()`: the combined text of all elements of the set. -/
def jq_text (jq : JQuery) : String :=
  jq.foldl (fun acc n => acc ++ n.textContent) ""

/-- Source `jq.next(selector)`; distinct elements have distinct next
siblings, so no duplicate arises. -/
def jq_next (d : Document) (jq : JQuery) (selector : String) : JQuery :=
  jq.filterMap (fun n => d.next n selector)

/-! ## static/js/citelet.js: publisher rules -/

/-- The loop of `join_attrs`, `idx` running over the keys. -/
def join_attrs_loop (ops : List String) :
    List (String × String) → Nat → String → String
  | [], _, attr_string => attr_string
  | (key, val) :: rest, idx, attr_string =>
    let op := (ops.get? (idx % ops.length)).getD "undefined"
    join_attrs_loop ops rest (idx + 1)
      (attr_string ++ "[" ++ key ++ op ++ "\"" ++ val ++ "\"]")

/-- Source `join_attrs(tag, attrs, ops)`; `none` is an omitted argument,
`attrs` lists the properties in the order of `Object.keys`. -/
def join_attrs (tag : String) (attrs : Option (List (String × String)))
    (ops : Option (List String)) : String :=
  let ops := ops.getD ["="]
  let attrs := attrs.getD []
  join_attrs_loop ops attrs 0 tag

/-- Rules whose body is `$(join_attrs('meta', attrs, ops)).length > 0`. -/
def meta_rule (attrs : List (String × String)) (ops : Option (List String))
    (d : Document) : JVal :=
  JVal.bool (decide ((d.select (join_attrs "meta" (some attrs) ops)).length > 0))

/-- Rules whose body is `/pattern/i.test($('title').html())`. -/
def title_rule (pattern : String) (d : Document) : JVal :=
  JVal.bool
    (RegExp.test_opt { source := Re.lit pattern, ignoreCase := true }
      (jq_html (d.select "title")))

/-- Source `publisher_rules.apa`: falls off the end (`undefined`) unless the
`dd` after a `dt` reading `Publisher:` names the association. -/
def apa_rule (d : Document) : JVal :=
  let pub_dt := (d.select "dt").filter (fun n => decide (n.innerHTML = "Publisher:"))
  if pub_dt.length > 0 then
    let pub_dd := jq_next d pub_dt "dd"
    if RegExp.test { source := Re.lit "american psychological association",
                     ignoreCase := true } (jq_text pub_dd) then
      JVal.bool true
    else JVal.undef
  else JVal.undef

/-- Source `publisher_rules`, in declaration order (the order `for ... in`
enumerates string keys). -/
def publisher_rules : List (String × (Document → JVal)) :=
  [ ("sciencedirect", title_rule "sciencedirect"),
    ("springer", title_rule "springer"),
    ("highwire", meta_rule [("name", "HW.identifier")] none),
    ("wiley", meta_rule [("name", "citation_publisher"),
        ("content", "Wiley Subscription Services, Inc., A Wiley Company")] none),
    ("biomed", meta_rule [("name", "citation_publisher"),
        ("content", "BioMed Central Ltd")] none),
    ("pubmed", meta_rule [("name", "ncbi_db"), ("content", "pmc")] none),
    ("mit", meta_rule [("name", "dc.Publisher"), ("content", "MIT Press")]
        (some ["=", "^="])),
    ("plos", meta_rule [("name", "citation_publisher"),
        ("content", "Public Library of Science")] none),
    ("frontiers", meta_rule [("name", "citation_publisher"),
        ("content", "Frontiers")] none),
    ("nature", meta_rule [("name", "DC.publisher"),
        ("content", "Nature Publishing Group")] none),
    ("jama", meta_rule [("name", "citation_publisher"),
        ("content", "American Medical Association")] none),
    ("apa", apa_rule) ]

/-- The `for (rule in publisher_rules)` loop of `detect_publisher`. -/
def detect_loop (d : Document) : List (String × (Document → JVal)) → JVal
  | [] => JVal.bool false
  | (rule, f) :: rest =>
    if (f d).truthy then JVal.str rule else detect_loop d rest

/-- Source `detect_publisher()`. -/
def detect_publisher (d : Document) : JVal :=
  detect_loop d publisher_rules

/-- Spec side: the name of the rule at position `i` of `publisher_rules`. -/
def rule_name (i : Nat) : Option String :=
  (publisher_rules[i]?).map (fun r => r.1)

/-- Spec side: the predicate of the rule at position `i` is truthy on `d`. -/
def satisfies (d : Document) (i : Nat) : Bool :=
  match publisher_rules[i]? with
  | some r => (r.2 d).truthy
  | none => false

/-! ## static/js/citelet.js: head reference extraction -/

/-- Errors a JavaScript call can end with. -/
inductive JSError where
  | TypeError
  deriving DecidableEq

/-- Result of a JavaScript call: a returned value, a thrown exception, or a
call that left the code of the repository because the callee was a member
inherited from `Object.prototype` (what that member returns is not
modelled). -/
inductive Outcome (α : Type) where
  | ok (v : α)
  | throws (e : JSError)
  | builtin (member : String)
  deriving DecidableEq

/-- Source `o[k] = v` on a plain object, for a key other than `__proto__`:
the own property is overwritten, or created after the existing ones. -/
def own_set {α : Type} (o : List (String × α)) (k : String) (v : α) :
    List (String × α) :=
  match o with
  | [] => [(k, v)]
  | (k', v') :: rest =>
    if k' = k then (k, v) :: rest else (k', v') :: own_set rest k v

/-- The object `head_info` of the meta scan: every own property holds an
array of strings. -/
abbrev MetaInfo := List (String × List String)

/-- Body of the callback of `meta.each` in `head_extract_meta`.  When `name`
is not an own property but a member inherited from `Object.prototype`, the
test `name in head_info` succeeds, no array is created, and `.push` is
called on the inherited member, which has no such method. -/
def head_meta_step (replace : RegExp) (head_info : MetaInfo) (n : Node) :
    Outcome MetaInfo :=
  let name := str_replace n.name replace
  let head_info := if !(js_in name head_info) then own_set head_info name [] else head_info
  match own_get head_info name with
  | some arr => Outcome.ok (own_set head_info name (arr ++ [n.content]))
  | none => Outcome.throws JSError.TypeError

/-- Source `meta.each(...)`: the callback runs on the elements in order; an
exception ends the iteration. -/
def head_meta_each (replace : RegExp) : List Node → MetaInfo → Outcome MetaInfo
  | [], head_info => Outcome.ok head_info
  | n :: rest, head_info =>
    match head_meta_step replace head_info n with
    | Outcome.ok head_info' => head_meta_each replace rest head_info'
    | Outcome.throws e => Outcome.throws e
    | Outcome.builtin m => Outcome.builtin m

/-- Source `head_extract_meta(test, replace)`, applied to the page. -/
def head_extract_meta (test replace : RegExp) (d : Document) :
    Outcome MetaInfo :=
  let metas := (d.select "meta[name]").filter (fun n => test.test n.name)
  head_meta_each replace metas []

/-- Pattern `DC\.|citation_(?!reference)`. -/
def meta_test_re : Re :=
  Re.alt (Re.lit "DC.") (Re.seq (Re.lit "citation_") (Re.notAhead (Re.lit "reference")))

/-- Pattern `DC\.|citation_`. -/
def meta_replace_re : Re :=
  Re.alt (Re.lit "DC.") (Re.lit "citation_")

/-- Spec side: the content values, in document order, of the meta nodes whose
name passes `test` and whose name without the first match of `replace` is `k`. -/
def meta_values (test replace : RegExp) (nodes : List Node) (k : String) : List String :=
  (nodes.filter (fun n => test.test n.name && decide (str_replace n.name replace = k))).map
    (fun n => n.content)

/-- Spec side: the mapping the specification describes, read at key `k`:
absent when no node contributes to `k`. -/
def meta_expected (test replace : RegExp) (nodes : List Node) (k : String) :
    Option (List String) :=
  match meta_values test replace nodes k with
  | [] => none
  | v :: vs => some (v :: vs)

/-- Values held by a head-reference object: a string or an array of
strings. -/
inductive HeadVal where
  | one (s : String)
  | many (l : List String)
  deriving DecidableEq

/-- A head-reference object: its own properties. -/
abbrev HeadInfo := List (String × HeadVal)

/-- Source `o[k] = v` on a plain object: for the key `__proto__` the
assignment reaches the prototype setter and creates no own property. -/
def js_assign {α : Type} (o : List (String × α)) (k : String) (v : α) :
    List (String × α) :=
  if k = "__proto__" then o else own_set o k v

/-- Source `jq.attr('href')`: read on the first element. -/
def jq_attr_href (jq : JQuery) : Option String :=
  match jq with
  | [] => none
  | n :: _ => n.href

/-- jQuery `uniqueSort`: duplicates removed, document order. -/
def jq_unique (jq : JQuery) : JQuery :=
  (jq.dedup).insertionSort (fun a b => a.id ≤ b.id)

/-- Source `jq.children(selector)`. -/
def jq_children (d : Document) (jq : JQuery) (selector : String) : JQuery :=
  jq.flatMap (fun n => d.children n selector)

/-- Source `jq.parent(selector)`. -/
def jq_parent (d : Document) (jq : JQuery) (selector : String) : JQuery :=
  jq_unique (jq.filterMap (fun n => d.parent n selector))

/-- Source `jq.nextAll(selector)`. -/
def jq_nextAll (d : Document) (jq : JQuery) (selector : String) : JQuery :=
  jq_unique (jq.flatMap (fun n => d.nextAll n selector))

/-- Removal of all matches, `s.replace(r, '')` for `r` with the `g` flag:
`skip` counts the characters of the current match still to be dropped. -/
def replace_all_go (r : RegExp) : Nat → Nat → List Char → List Char
  | _, _, [] => []
  | p, skip + 1, _ :: xs => replace_all_go r (p + 1) skip xs
  | p, 0, x :: xs =>
    match (r.source.run r.ignoreCase (p, x :: xs)).head? with
    | some e =>
      if e.1 > p then replace_all_go r (p + 1) (e.1 - p - 1) xs
      else x :: replace_all_go r (p + 1) 0 xs
    | none => x :: replace_all_go r (p + 1) 0 xs

/-- Source `s.replace(r, '')` for `r` with the `g` flag. -/
def str_replace_all (s : String) (r : RegExp) : String :=
  String.mk (replace_all_go r 0 0 s.data)

/-- Source `head_ref_extractors.sciencedirect`: `.replace` is called on the
result of `.attr('href')`, which is `undefined` without the link. -/
def head_sciencedirect (d : Document) : Outcome HeadInfo :=
  let ddDoi := d.select "a#ddDoi"
  match jq_attr_href ddDoi with
  | none => Outcome.throws JSError.TypeError
  | some ddlink =>
    let ddlink := str_replace ddlink
      { source := Re.seq (Re.lazyStar Re.dot) (Re.seq (Re.lit "dx.doi.org")
          (Re.seq (Re.lazyStar Re.dot) (Re.chr '/'))) }
    Outcome.ok (js_assign [] "doi" (HeadVal.one ddlink))

/-- Source `head_ref_extractors.springer`. -/
def head_springer (d : Document) : Outcome HeadInfo :=
  let context_div := d.select "div.ContextInformation"
  let head_info := (jq_children d context_div "span").foldl
    (fun (head_info : HeadInfo) n =>
      let key := str_replace n.className { source := Re.lit "article", ignoreCase := true }
      let val := n.innerText
      js_assign head_info key (HeadVal.one val)) []
  Outcome.ok (js_assign head_info "authors"
    (HeadVal.many ((d.select "span.AuthorName").map (fun n => n.innerText))))

/-- The `for` loop of `head_ref_extractors.apa`: `dds[idx]` is `undefined`
when the page has fewer `dd` than `dt`. -/
def head_apa_loop : List Node → List Node → HeadInfo → Outcome HeadInfo
  | [], _, head_info => Outcome.ok head_info
  | _ :: _, [], _ => Outcome.throws JSError.TypeError
  | dt :: dts, dd :: dds, head_info =>
    let key := str_replace_all dt.innerHTML
      { source := Re.alt (Re.seq Re.bol (Re.chr ':')) (Re.seq (Re.chr ':') Re.eol) }
    let val := dd.innerHTML
    head_apa_loop dts dds (js_assign head_info key (HeadVal.one val))

/-- Source `head_ref_extractors.apa`. -/
def head_apa (d : Document) : Outcome HeadInfo :=
  let dts := d.select ".citation-wrapping-div dt"
  let dds := d.select ".citation-wrapping-div dd"
  head_apa_loop dts dds []

/-- The meta scan as a head-reference extractor. -/
def head_meta (ignoreCase : Bool) (d : Document) : Outcome HeadInfo :=
  match head_extract_meta { source := meta_test_re, ignoreCase := ignoreCase }
      { source := meta_replace_re, ignoreCase := ignoreCase } d with
  | Outcome.ok info => Outcome.ok (info.map (fun kv => (kv.1, HeadVal.many kv.2)))
  | Outcome.throws e => Outcome.throws e
  | Outcome.builtin m => Outcome.builtin m

/-- Source `head_ref_extractors`. -/
def head_ref_extractors : List (String × (Document → Outcome HeadInfo)) :=
  [ ("sciencedirect", head_sciencedirect),
    ("springer", head_springer),
    ("highwire", head_meta false),
    ("wiley", head_meta false),
    ("biomed", head_meta true),
    ("pubmed", head_meta true),
    ("mit", head_meta true),
    ("plos", head_meta false),
    ("frontiers", head_meta false),
    ("nature", head_meta false),
    ("jama", head_meta false),
    ("apa", head_apa) ]

/-! ## static/js/citelet.js: cited reference extraction -/

/-- What a cited-reference extractor returns: a jQuery object, or `false`. -/
inductive CitedResult where
  | jq (refs : JQuery)
  | jsfalse
  deriving DecidableEq

/-- Extractors whose body is `return $(selector)`. -/
def cited_select (selector : String) (d : Document) : CitedResult :=
  CitedResult.jq (d.select selector)

/-- Source `cited_ref_extractors.pubmed`. -/
def cited_pubmed (d : Document) : CitedResult :=
  let refs_v1 := d.select "li[id^=\"B\"]"
  let refs_v2 := d.select "div.ref-cit-blk"
  CitedResult.jq (if refs_v1.length ≠ 0 then refs_v1 else refs_v2)

/-- Source `cited_ref_extractors.apa`. -/
def cited_apa (d : Document) : CitedResult :=
  let ref_link := d.select "a[title=\"References\"][href=\"#toc\"]"
  if ref_link.length = 0 then CitedResult.jsfalse
  else
    let ref_span := jq_parent d ref_link "span"
    if ref_span.length = 0 then CitedResult.jsfalse
    else
      let refs := jq_nextAll d ref_span "p.body-paragraph"
      CitedResult.jq (refs.filter (fun n =>
        (!RegExp.test { source := Re.lit "this publication is protected",
                        ignoreCase := true } n.innerHTML) &&
        (!RegExp.test { source := Re.seq (Re.lit "submitted") (Re.seq (Re.lazyStar Re.dot)
            (Re.seq (Re.lit "revised") (Re.seq (Re.lazyStar Re.dot) (Re.lit "accepted")))),
                        ignoreCase := true } n.innerHTML)))

/-- Source `cited_ref_extractors`. -/
def cited_ref_extractors : List (String × (Document → CitedResult)) :=
  [ ("sciencedirect", cited_select "ul.reference"),
    ("springer", cited_select "div.Citation"),
    ("highwire", cited_select "ol.cit-list > li"),
    ("wiley", cited_select "ul.plain > li"),
    ("biomed", cited_select "ol#references > li"),
    ("pubmed", cited_pubmed),
    ("mit", cited_select "td.refnumber + td"),
    ("plos", cited_select "ol.references > li"),
    ("frontiers", cited_select "div.References"),
    ("nature", cited_select "ol.references > li"),
    ("jama", cited_select "div.referenceSection div.refRow"),
    ("apa", cited_apa) ]

/-! ## static/js/citelet.js: the two entry points and the record -/

/-- What `stringify` is applied to: a head-reference object or the array of
HTML fragments. -/
inductive JSData where
  | obj (o : HeadInfo)
  | arr (l : List String)
  deriving DecidableEq

/-- ToPropertyKey of a primitive, as used by `publisher in table` and
`table[publisher]`. -/
def JVal.to_key : JVal → String
  | .undef => "undefined"
  | .null => "null"
  | .bool true => "true"
  | .bool false => "false"
  | .num n => toString n
  | .str s => s

/-- Source `extract_head_reference(publisher)`.  `stringify` is the
serializer the page provides (`Object.toJSON` or `JSON.stringify`). -/
def extract_head_reference (stringify : JSData → String) (d : Document)
    (publisher : JVal) : Outcome JVal :=
  if !(js_in publisher.to_key head_ref_extractors) then Outcome.ok (JVal.bool false)
  else
    match own_get head_ref_extractors publisher.to_key with
    | none => Outcome.builtin publisher.to_key
    | some extractor =>
      match extractor d with
      | Outcome.ok head_ref => Outcome.ok (JVal.str (stringify (JSData.obj head_ref)))
      | Outcome.throws e => Outcome.throws e
      | Outcome.builtin m => Outcome.builtin m

/-- Source `extract_cited_references(publisher)`: `refs.map` does not exist
when the extractor returned `false`. -/
def extract_cited_references (stringify : JSData → String) (d : Document)
    (publisher : JVal) : Outcome JVal :=
  if !(js_in publisher.to_key cited_ref_extractors) then Outcome.ok (JVal.bool false)
  else
    match own_get cited_ref_extractors publisher.to_key with
    | none => Outcome.builtin publisher.to_key
    | some extractor =>
      match extractor d with
      | CitedResult.jsfalse => Outcome.throws JSError.TypeError
      | CitedResult.jq refs =>
        Outcome.ok (JVal.str (stringify (JSData.arr (refs.map (fun n => n.innerHTML)))))

/-- The scraped record handed to the workflow. -/
structure Record where
  publisher : JVal
  head_ref : JVal
  cited_refs : JVal
  url : Location
  deriving DecidableEq

/-- Modelled from the spec: `citelet.scrape`, which the extension calls, is
not among the sources.  The record is assembled as in lines 269-290 of
`static/js/citelet.js` (publisher, then head reference, then cited
references of that publisher), with the url read from the page's current
location. -/
def scrape (stringify : JSData → String) (d : Document) : Outcome Record :=
  let publisher := detect_publisher d
  match extract_head_reference stringify d publisher with
  | Outcome.throws e => Outcome.throws e
  | Outcome.builtin m => Outcome.builtin m
  | Outcome.ok head_ref_json =>
    match extract_cited_references stringify d publisher with
    | Outcome.throws e => Outcome.throws e
    | Outcome.builtin m => Outcome.builtin m
    | Outcome.ok cited_refs_json =>
      Outcome.ok { publisher := publisher, head_ref := head_ref_json,
                   cited_refs := cited_refs_json, url := d.location }

/-! ## chrome-ext/citelet.ext.js: the deferred chain -/

/-- The JSON answer of the server, reduced to the field the code reads. -/
structure Response where
  status : JVal
  deriving DecidableEq

/-- The map kept under the key `sent` of the store: url to record. -/
abbrev SentMap := List (String × Record)

/-- Content of `chrome.storage.local`, reduced to the two keys the extension
uses.  `mode` is `undefined` when the key is absent; `sent` is `none` when the
key is absent. -/
structure Storage where
  mode : JVal := JVal.undef
  sent : Option SentMap := none
  deriving DecidableEq

/-- Observable actions of a run, in the order they happen. -/
inductive Event where
  /-- Source `chrome.storage.local.set({mode : v})`. -/
  | storage_set_mode (v : JVal)
  /-- Source `chrome.storage.local.set({'sent' : sent})`. -/
  | storage_set_sent (sent : SentMap)
  /-- Source `citelet.scrape()`. -/
  | scrape
  /-- Source `ext_confirm.confirm_tb()`. -/
  | confirm_tb
  /-- Source `citelet.send(data, {source : source}, ...)`. -/
  | send (data : Record) (source : String)
  /-- Source `console.log(msg)`. -/
  | log (msg : String)
  deriving DecidableEq

/-- The store and the actions performed so far. -/
structure World where
  storage : Storage := {}
  trace : List Event := []
  deriving DecidableEq

/-- Performing one more action. -/
def World.emit (w : World) (e : Event) : World :=
  { w with trace := w.trace ++ [e] }

/-- The collaborators of one run, which are not among the sources and are
taken as parameters, typed as the external interfaces of the specification
describe them.  `scrape`: the data `citelet.scrape()` resolves with (`none`:
it never resolves).  `confirm_tb`: the boolean the confirmation dialog
`ext_confirm.confirm_tb()` resolves with (`none`: it never resolves).
`send`: the answer handed to the `success` callback of `citelet.send`
(`none`: the request fails and `success` is never called). -/
structure Env where
  scrape : Option Record
  confirm_tb : Option Bool
  send : Record → String → Option Response

/-- State of a jQuery deferred once the run has come to rest. -/
inductive Deferred (α : Type) where
  | resolved (v : α)
  | rejected
  | pending
  deriving DecidableEq

/-- A step of the chain: it acts on the world and leaves a deferred. -/
abbrev Task (α : Type) := World → World × Deferred α

/-- Source `.then(f)` with the piping behaviour of jQuery 1.8 and later, on
which the comments `Break chain by returning a rejected deferred` rely: `f`
runs when the deferred is resolved and its result takes over; rejected and
pending pass on. -/
def then_ {α β : Type} (t : Task α) (f : α → Task β) : Task β :=
  fun w =>
    match t w with
    | (w', Deferred.resolved v) => f v w'
    | (w', Deferred.rejected) => (w', Deferred.rejected)
    | (w', Deferred.pending) => (w', Deferred.pending)

/-- Source `.done(cb)`: `cb` runs when the deferred is resolved; the deferred
itself is handed on. -/
def done_ {α : Type} (t : Task α) (cb : α → World → World) : Task α :=
  fun w =>
    match t w with
    | (w', Deferred.resolved v) => (cb v w', Deferred.resolved v)
    | (w', Deferred.rejected) => (w', Deferred.rejected)
    | (w', Deferred.pending) => (w', Deferred.pending)

/-- The object `state` as `init` resolves it. -/
structure InitState where
  doconfirm : Bool
  deriving DecidableEq

/-- The object `state` from `doconfirm_to_scrape` on; fields not yet added
are `undefined`. -/
structure State where
  doconfirm : Bool
  data : Record
  sent : JVal := JVal.undef
  confirmed : JVal := JVal.undef
  res : Option Response := none
  deriving DecidableEq

/-- Source `init()`.  In the `default` branch of the `switch` the callback
returns a rejected deferred to nobody: `defer` is never settled. -/
def init : Task InitState :=
  fun w =>
    let stored_mode := w.storage.mode
    let w1 : World :=
      if stored_mode = JVal.undef then
        ({ w with storage := { w.storage with mode := JVal.str "confirm" } }).emit
          (Event.storage_set_mode (JVal.str "confirm"))
      else w
    let mode := if stored_mode = JVal.undef then JVal.str "confirm" else stored_mode
    if mode.strict_eq (JVal.str "noconfirm") then
      (w1, Deferred.resolved { doconfirm := false })
    else if mode.strict_eq (JVal.str "confirm") then
      (w1, Deferred.resolved { doconfirm := true })
    else (w1, Deferred.pending)

/-- Source `doconfirm_to_scrape(state)`. -/
def doconfirm_to_scrape (env : Env) (state : InitState) : Task State :=
  fun w =>
    let w1 := w.emit Event.scrape
    match env.scrape with
    | some data => (w1, Deferred.resolved { doconfirm := state.doconfirm, data := data })
    | none => (w1, Deferred.pending)

/-- Source `scrape_to_valid(state)`. -/
def scrape_to_valid (state : State) : Task State :=
  fun w =>
    if state.data.publisher.strict_eq (JVal.str "") ||
        state.data.head_ref.strict_eq (JVal.str "") ||
        state.data.cited_refs.strict_eq (JVal.str "") then
      (w, Deferred.rejected)
    else (w, Deferred.resolved state)

/-- Source `typeof(o[k]) === 'undefined'` for a plain object whose own
properties hold objects: false for an own property and for a member
inherited from `Object.prototype`. -/
def js_typeof_undefined {α : Type} (o : List (String × α)) (k : String) : Bool :=
  (own_get o k).isNone && !decide (k ∈ Object_prototype_keys)

/-- Source `valid_to_stored(state)`. -/
def valid_to_stored (state : State) : Task State :=
  fun w =>
    let _sent : SentMap := match w.storage.sent with
      | some sent => sent
      | none => []
    (w, Deferred.resolved
      { state with sent := JVal.bool (js_typeof_undefined _sent state.data.url.href) })

/-- Source `stored_to_confirmed(state)`. -/
def stored_to_confirmed (env : Env) (state : State) : Task State :=
  fun w =>
    if state.sent.truthy then
      if state.doconfirm then
        let w1 := w.emit Event.confirm_tb
        match env.confirm_tb with
        | some confirmed =>
          (w1, Deferred.resolved { state with confirmed := JVal.bool confirmed })
        | none => (w1, Deferred.pending)
      else (w, Deferred.resolved { state with confirmed := JVal.bool true })
    else
      (w.emit (Event.log "References already sent. Quitting..."), Deferred.rejected)

/-- Source `confirmed_to_send(state)`: only a `success` callback is passed
to `citelet.send`. -/
def confirmed_to_send (env : Env) (state : State) : Task State :=
  fun w =>
    if state.confirmed.truthy then
      let w1 := (w.emit (Event.log "Sending references...")).emit
        (Event.send state.data "chrome-extension")
      match env.send state.data "chrome-extension" with
      | some res => (w1, Deferred.resolved { state with res := some res })
      | none => (w1, Deferred.pending)
    else
      (w.emit (Event.log "Not confirmed. Quitting..."), Deferred.rejected)

/-- Source `v == 'success'` on a primitive: only the string itself is
loosely equal to it. -/
def JVal.loose_eq_success (v : JVal) : Bool :=
  decide (v = JVal.str "success")

/-- Source `send_to_store(state)`; without a `res` the read of
`state.res.status` throws and nothing is stored. -/
def send_to_store (state : State) (w : World) : World :=
  match state.res with
  | none => w
  | some res =>
    if res.status.loose_eq_success then
      let w1 := w.emit (Event.log "Storing references in Chrome...")
      let sent : SentMap := match w1.storage.sent with
        | some sent => sent
        | none => []
      let sent := js_assign sent state.data.url.href state.data
      ({ w1 with storage := { w1.storage with sent := some sent } }).emit
        (Event.storage_set_sent sent)
    else w

/-- Source `ext()`. -/
def ext (env : Env) : Task State :=
  done_
    (then_ (then_ (then_ (then_ (then_ init
      (doconfirm_to_scrape env))
      scrape_to_valid)
      valid_to_stored)
      (stored_to_confirmed env))
      (confirmed_to_send env))
    send_to_store

/-- The chain of `ext` from `scrape_to_valid` on, for a scraped state. -/
def ext_from_scraped (env : Env) (state : State) : Task State :=
  done_
    (then_ (then_ (then_ (scrape_to_valid state)
      valid_to_stored)
      (stored_to_confirmed env))
      (confirmed_to_send env))
    send_to_store

/-- The chain of `ext` from `valid_to_stored` on. -/
def ext_from_valid (env : Env) (state : State) : Task State :=
  done_
    (then_ (then_ (valid_to_stored state)
      (stored_to_confirmed env))
      (confirmed_to_send env))
    send_to_store

/-- The chain of `ext` from `stored_to_confirmed` on. -/
def ext_from_stored (env : Env) (state : State) : Task State :=
  done_ (then_ (stored_to_confirmed env state) (confirmed_to_send env)) send_to_store

/-- Number of `citelet.send` calls in a trace. -/
def count_send (t : List Event) : Nat :=
  (t.filter (fun e => match e with
    | Event.send _ _ => true
    | _ => false)).length

/-- Number of writes of the `sent` map in a trace. -/
def count_set_sent (t : List Event) : Nat :=
  (t.filter (fun e => match e with
    | Event.storage_set_sent _ => true
    | _ => false)).length

/-- Number of calls of the confirmation dialog in a trace. -/
def count_confirm (t : List Event) : Nat :=
  (t.filter (fun e => match e with
    | Event.confirm_tb => true
    | _ => false)).length

/-- Spec side: the `sent` map of the store, empty when the key is absent. -/
def sent_map (st : Storage) : SentMap :=
  match st.sent with
  | some sent => sent
  | none => []

/-- Spec side: the record is handed on by `scrape_to_valid` (none of the
three fields is the empty string). -/
def passes_validity (r : Record) : Prop :=
  r.publisher ≠ JVal.str "" ∧ r.head_ref ≠ JVal.str "" ∧ r.cited_refs ≠ JVal.str ""

/-- Spec side: the text one attribute adds to the selector,
`[` key operator `"` value `"` `]`. -/
def attr_fragment (key op val : String) : String :=
  "[" ++ key ++ op ++ "\"" ++ val ++ "\"" ++ "]"

/-- Spec side: the tag followed by the fragments of the attributes in order,
the attribute at position `i` with the operator at position `i mod |ops|`. -/
def join_attrs_expected (tag : String) (attrs : List (String × String))
    (ops : List String) : String :=
  tag ++ ((attrs.enum.map (fun p =>
    attr_fragment p.2.1 (ops.getD (p.1 % ops.length) "") p.2.2)).foldr
      (fun x acc => x ++ acc) "")

/-- Spec side: the input `s` starts with the word `w`, characters compared
as the matcher compares them (after upper-casing under the `i` flag). -/
def starts_with (ic : Bool) : List Char → List Char → Bool
  | [], _ => true
  | _ :: _, [] => false
  | c :: w, x :: s => decide (canon ic x = canon ic c) && starts_with ic w s

/-! ## Sample pages and inputs -/

/-- A page whose title names both ScienceDirect and Springer: it satisfies
the rules at positions 0 and 1. -/
def doc_two_titles : Document :=
  { select := fun s =>
      if s = "title" then [{ innerHTML := "SpringerLink at ScienceDirect" }] else [] }

/-- A page whose only elements with a name are the three meta nodes
(citation_author, A), (citation_author, B), (DC.title, T). -/
def doc_three_metas : Document :=
  { select := fun s =>
      if s = "meta[name]" then
        [ { id := 0, name := "citation_author", content := "A" },
          { id := 1, name := "citation_author", content := "B" },
          { id := 2, name := "DC.title", content := "T" } ]
      else [] }

/-- A page with the single meta node (citation_constructor, X), as in
`<meta name="citation_constructor" content="X">`. -/
def doc_inherited_key : Document :=
  { select := fun s =>
      if s = "meta[name]" then [ { name := "citation_constructor", content := "X" } ]
      else [] }

/-- A page on which no selector of the sources finds an element. -/
def doc_empty : Document :=
  { select := fun _ => [] }

/-- The record lines 269-276 of `static/js/citelet.js` produce on a page
without a matching rule: `detect_publisher` answers `false`, and both
extraction functions answer `false` for a name without extractor. -/
def unmatched_record (url : Location) : Record :=
  { publisher := JVal.bool false, head_ref := JVal.bool false,
    cited_refs := JVal.bool false, url := url }

/-- A record of a recognised page without meta data and references: the
serialized empty mapping and the serialized empty list. -/
def empty_fields_record (url : Location) : Record :=
  { publisher := JVal.str "highwire", head_ref := JVal.str "\x7b\x7d",
    cited_refs := JVal.str "[]", url := url }

/-- Collaborators of a run on the empty page: `citelet.scrape` hands over the
record of that page, the dialog confirms, the server answers `success`. -/
def env_unmatched : Env :=
  { scrape := some (unmatched_record doc_empty.location),
    confirm_tb := some true,
    send := fun _ _ => some { status := JVal.str "success" } }

/-- A record of a recognised page. -/
def record_example : Record :=
  { publisher := JVal.str "plos", head_ref := JVal.str "\x7b\"title\":[\"T\"]\x7d",
    cited_refs := JVal.str "[\"r1\",\"r2\"]",
    url := { scheme := "http", rest := "//journal.example/article/1" } }

/-- A state as `doconfirm_to_scrape` resolves it, confirmation switched off. -/
def state_example : State :=
  { doconfirm := false, data := record_example }

/-- A store that already holds the record of `record_example` under its url. -/
def world_already_sent : World :=
  { storage := { mode := JVal.str "noconfirm",
                 sent := some [(record_example.url.href, record_example)] } }

/-- Collaborators of a run in which the user declines. -/
def env_declined : Env :=
  { scrape := some record_example,
    confirm_tb := some false,
    send := fun _ _ => some { status := JVal.str "success" } }

/-- A state that passed the dedup check, confirmation switched on. -/
def state_confirm : State :=
  { doconfirm := true, data := record_example, sent := JVal.bool true }

/-- Collaborators of a run in which the user confirms and the server
answers `success`. -/
def env_success : Env :=
  { scrape := some record_example,
    confirm_tb := some true,
    send := fun _ _ => some { status := JVal.str "success" } }

/-- Collaborators of a run in which the request to the server fails: the
`success` callback is never called. -/
def env_send_fails : Env :=
  { scrape := some record_example,
    confirm_tb := some true,
    send := fun _ _ => none }

/-- A state whose submission has been confirmed. -/
def state_confirmed : State :=
  { doconfirm := true, data := record_example, sent := JVal.bool true,
    confirmed := JVal.bool true }

/-- A page with the link `a[title="References"][href="#toc"]` directly inside
a `div`: the link has no enclosing `span`. -/
def doc_link_without_span : Document :=
  { select := fun s =>
      if s = "a[title=\"References\"][href=\"#toc\"]" then
        [ { id := 7, innerHTML := "References", href := some "#toc" } ]
      else [] }

/-- A page with the single meta node (xDC.title, T): the name contains `DC.`
after its first character. -/
def doc_inner_match : Document :=
  { select := fun s =>
      if s = "meta[name]" then [ { name := "xDC.title", content := "T" } ] else [] }

/-- A page with the single meta node (citation_Reference, X). -/
def doc_capital_reference : Document :=
  { select := fun s =>
      if s = "meta[name]" then [ { name := "citation_Reference", content := "X" } ]
      else [] }

/-- A page with the two meta nodes (citation_reference, R) and
(citation_title, T). -/
def doc_reference_and_title : Document :=
  { select := fun s =>
      if s = "meta[name]" then
        [ { id := 0, name := "citation_reference", content := "R" },
          { id := 1, name := "citation_title", content := "T" } ]
      else [] }

/-! # Theorems -/

/-! ## Publisher detection: first match wins -/

theorem detect_loop_first (d : Document) :
    ∀ (rs : List (String × (Document → JVal))) (i : Nat) (r : String × (Document → JVal)),
      rs[i]? = some r → (r.2 d).truthy = true →
      (∀ k, k < i → ∀ r', rs[k]? = some r' → (r'.2 d).truthy = false) →
      detect_loop d rs = JVal.str r.1 := by
  intro rs
  induction rs with
  | nil => intro i r h; simp at h
  | cons hd tl ih =>
    intro i r h ht hb
    obtain ⟨nm, f⟩ := hd
    cases i with
    | zero =>
      simp at h
      subst h
      simp [detect_loop, ht]
    | succ i =>
      have h0 : (f d).truthy = false := hb 0 (Nat.succ_pos i) (nm, f) (by simp)
      simp only [detect_loop, h0]
      apply ih i r (by simpa using h) ht
      intro k hk r' hr'
      exact hb (k + 1) (Nat.succ_lt_succ hk) r' (by simpa using hr')

theorem detect_loop_false (d : Document) :
    ∀ (rs : List (String × (Document → JVal))),
      detect_loop d rs = JVal.bool false ↔ ∀ r ∈ rs, (r.2 d).truthy = false := by
  intro rs
  induction rs with
  | nil => simp [detect_loop]
  | cons hd tl ih =>
    obtain ⟨nm, f⟩ := hd
    cases ht : (f d).truthy <;> simp [detect_loop, ht, ih]

theorem satisfies_eq (d : Document) (i : Nat) (r : String × (Document → JVal))
    (h : publisher_rules[i]? = some r) : satisfies d i = (r.2 d).truthy := by
  simp [satisfies, h]

theorem satisfies_lt (d : Document) (i : Nat) (h : satisfies d i = true) :
    i < publisher_rules.length := by
  by_contra hn
  have : publisher_rules[i]? = none := List.getElem?_eq_none (Nat.le_of_not_lt hn)
  simp [satisfies, this] at h

theorem rule_names_distinct :
    ∀ i, i < 12 → ∀ j, j < 12 → i < j → rule_name i ≠ rule_name j := by
  decide

theorem detect_first_satisfied (d : Document) (i : Nat)
    (hi : satisfies d i = true) (hb : ∀ k, k < i → satisfies d k = false) :
    ∃ nm, rule_name i = some nm ∧ detect_publisher d = JVal.str nm := by
  have hlt := satisfies_lt d i hi
  obtain ⟨r, hr⟩ : ∃ r, publisher_rules[i]? = some r :=
    ⟨publisher_rules[i], List.getElem?_eq_getElem hlt⟩
  refine ⟨r.1, by simp [rule_name, hr], ?_⟩
  apply detect_loop_first d publisher_rules i r hr
  · rw [← satisfies_eq d i r hr]; exact hi
  · intro k hk r' hr'
    rw [← satisfies_eq d k r' hr']; exact hb k hk

/-- C1: `detect_publisher` goes through the twelve rules in declaration order
and answers with the name of the first rule whose predicate is truthy; it
answers `false` exactly when no predicate is truthy; a rule at a later
position never wins over a satisfied rule at an earlier position. -/
theorem detect_publisher_first_match (d : Document) :
    publisher_rules.map (fun r => r.1) =
      ["sciencedirect", "springer", "highwire", "wiley", "biomed", "pubmed",
       "mit", "plos", "frontiers", "nature", "jama", "apa"] ∧
    (∀ i, satisfies d i = true → (∀ k, k < i → satisfies d k = false) →
      ∃ nm, rule_name i = some nm ∧ detect_publisher d = JVal.str nm) ∧
    (detect_publisher d = JVal.bool false ↔ ∀ i, satisfies d i = false) ∧
    (∀ i j, i < j → satisfies d i = true → satisfies d j = true →
      (∀ k, k < i → satisfies d k = false) →
      ∃ nm, rule_name i = some nm ∧ detect_publisher d = JVal.str nm ∧
        rule_name j ≠ some nm) := by
  refine ⟨by decide, detect_first_satisfied d, ?_, ?_⟩
  · rw [detect_publisher, detect_loop_false]
    constructor
    · intro h i
      cases hg : publisher_rules[i]? with
      | none => simp [satisfies, hg]
      | some r =>
        rw [satisfies_eq d i r hg]
        exact h r (List.getElem?_mem hg)
    · intro h r hr
      obtain ⟨i, hi⟩ := List.getElem?_of_mem hr
      rw [← satisfies_eq d i r hi]; exact h i
  · intro i j hij hi hj hb
    obtain ⟨nm, hnm, hdet⟩ := detect_first_satisfied d i hi hb
    refine ⟨nm, hnm, hdet, ?_⟩
    have hjl : j < 12 := satisfies_lt d j hj
    have := rule_names_distinct i (by omega) j hjl hij
    rw [hnm] at this
    exact fun h => this h.symm

theorem detect_publisher_first_match_witness :
    satisfies doc_two_titles 0 = true ∧ satisfies doc_two_titles 1 = true ∧
    ∃ nm, rule_name 0 = some nm ∧ detect_publisher doc_two_titles = JVal.str nm ∧
      rule_name 1 ≠ some nm :=
  ⟨by decide, by decide,
    (detect_publisher_first_match doc_two_titles).2.2.2 0 1 (by decide) (by decide)
      (by decide) (by intro k hk; omega)⟩

/-! ## The meta scan -/

theorem own_get_own_set_same {α : Type} (o : List (String × α)) (k : String) (v : α) :
    own_get (own_set o k v) k = some v := by
  induction o with
  | nil => simp [own_set, own_get]
  | cons hd tl ih =>
    obtain ⟨k', v'⟩ := hd
    by_cases h : k' = k
    · simp [own_set, own_get, h]
    · simp [own_set, own_get, h, ih]

theorem own_get_own_set_ne {α : Type} (o : List (String × α)) (k k' : String) (v : α)
    (hne : k' ≠ k) : own_get (own_set o k v) k' = own_get o k' := by
  induction o with
  | nil =>
    have : ¬ k = k' := fun h => hne h.symm
    simp [own_set, own_get, this]
  | cons hd tl ih =>
    obtain ⟨k₀, v₀⟩ := hd
    by_cases h : k₀ = k
    · subst h
      simp [own_set, own_get, Ne.symm hne]
    · by_cases h2 : k₀ = k'
      · subst h2
        simp [own_set, own_get, hne]
      · simp [own_set, own_get, h, h2, ih]

theorem head_meta_step_ok (replace : RegExp) (info : MetaInfo) (n : Node)
    (hsafe : str_replace n.name replace ∉ Object_prototype_keys) :
    ∃ info', head_meta_step replace info n = Outcome.ok info' ∧
      own_get info' (str_replace n.name replace) =
        some ((own_get info (str_replace n.name replace)).getD [] ++ [n.content]) ∧
      ∀ k, k ≠ str_replace n.name replace → own_get info' k = own_get info k := by
  cases hg : own_get info (str_replace n.name replace) with
  | some arr =>
    refine ⟨own_set info (str_replace n.name replace) (arr ++ [n.content]), ?_, ?_, ?_⟩
    · simp [head_meta_step, js_in, hg]
    · simp [own_get_own_set_same]
    · intro k hk; exact own_get_own_set_ne _ _ _ _ hk
  | none =>
    refine ⟨own_set (own_set info (str_replace n.name replace) [])
      (str_replace n.name replace) ([] ++ [n.content]), ?_, ?_, ?_⟩
    · simp [head_meta_step, js_in, hg, hsafe, own_get_own_set_same]
    · simp [own_get_own_set_same]
    · intro k hk
      rw [own_get_own_set_ne _ _ _ _ hk, own_get_own_set_ne _ _ _ _ hk]

theorem head_meta_each_ok (replace : RegExp) :
    ∀ (ms : List Node) (info : MetaInfo),
      (∀ n ∈ ms, str_replace n.name replace ∉ Object_prototype_keys) →
      ∃ info', head_meta_each replace ms info = Outcome.ok info' ∧
        ∀ k, own_get info' k =
          match (ms.filter (fun n => decide (str_replace n.name replace = k))).map
              (fun n => n.content) with
          | [] => own_get info k
          | v :: vs => some ((own_get info k).getD [] ++ v :: vs) := by
  intro ms
  induction ms with
  | nil => intro info _; exact ⟨info, rfl, fun k => by simp⟩
  | cons n rest ih =>
    intro info hsafe
    obtain ⟨info1, h1, hsame, hother⟩ :=
      head_meta_step_ok replace info n (hsafe n (List.mem_cons_self _ _))
    obtain ⟨info', h2, hrest⟩ :=
      ih info1 (fun m hm => hsafe m (List.mem_cons_of_mem _ hm))
    refine ⟨info', by simp [head_meta_each, h1, h2], ?_⟩
    intro k
    rw [hrest k]
    by_cases hk : str_replace n.name replace = k
    · subst hk
      rw [hsame]
      simp only [List.filter_cons, decide_True, ite_true, List.map_cons]
      cases (List.filter (fun m => decide (str_replace m.name replace =
          str_replace n.name replace)) rest).map (fun m => m.content) with
      | nil => simp
      | cons v vs => simp
    · have hk' : k ≠ str_replace n.name replace := fun h => hk h.symm
      rw [hother k hk']
      simp [List.filter_cons, hk]

/-- The meta scan on a page none of whose stripped names is a member of
`Object.prototype`: the result maps every key to the content values, in
document order, of exactly the nodes that pass `test` and strip to that key,
and holds no other key. -/
theorem head_extract_meta_grouped (test replace : RegExp) (d : Document)
    (hsafe : ∀ n ∈ d.select "meta[name]", test.test n.name = true →
      str_replace n.name replace ∉ Object_prototype_keys) :
    ∃ info, head_extract_meta test replace d = Outcome.ok info ∧
      ∀ k, own_get info k = meta_expected test replace (d.select "meta[name]") k := by
  obtain ⟨info, h, hk⟩ := head_meta_each_ok replace
    ((d.select "meta[name]").filter (fun n => test.test n.name)) []
    (by
      intro n hn
      rw [List.mem_filter] at hn
      exact hsafe n hn.1 hn.2)
  refine ⟨info, h, ?_⟩
  intro k
  rw [hk k, meta_expected, meta_values, List.filter_filter]
  have : (fun a : Node => decide (str_replace a.name replace = k) && test.test a.name) =
      (fun n : Node => test.test n.name && decide (str_replace n.name replace = k)) := by
    funext a; exact Bool.and_comm _ _
  rw [this]
  cases (List.filter (fun n : Node => test.test n.name &&
      decide (str_replace n.name replace = k)) (d.select "meta[name]")).map
      (fun n => n.content) with
  | nil => simp [own_get]
  | cons v vs => simp [own_get]

theorem head_extract_meta_three_nodes :
    head_extract_meta { source := meta_test_re } { source := meta_replace_re }
      doc_three_metas = Outcome.ok [("author", ["A", "B"]), ("title", ["T"])] := by
  decide

/-- C2: on the page with the single node (citation_constructor, X) the
extractor built by `head_extract_meta` with the patterns of the meta-scan
publishers throws a TypeError, where the specification asks for the mapping with the
key `constructor` holding `[X]`. -/
theorem head_extract_meta_inherited_key_throws :
    meta_expected { source := meta_test_re } { source := meta_replace_re }
      (doc_inherited_key.select "meta[name]") "constructor" = some ["X"] ∧
    head_extract_meta { source := meta_test_re } { source := meta_replace_re }
      doc_inherited_key = Outcome.throws JSError.TypeError := by
  decide

/-! ## The record of a page without publisher and the validity check -/

theorem scrape_unmatched (stringify : JSData → String) (d : Document)
    (h : detect_publisher d = JVal.bool false) :
    scrape stringify d = Outcome.ok (unmatched_record d.location) := by
  have h1 : js_in "false" head_ref_extractors = false := by decide
  have h2 : js_in "false" cited_ref_extractors = false := by decide
  simp [scrape, h, extract_head_reference, extract_cited_references, JVal.to_key, h1, h2,
    unmatched_record]

theorem scrape_to_valid_rejects_iff (state : State) (w : World) :
    (scrape_to_valid state w).2 = Deferred.rejected ↔
      (state.data.publisher = JVal.str "" ∨ state.data.head_ref = JVal.str "" ∨
        state.data.cited_refs = JVal.str "") := by
  unfold scrape_to_valid
  by_cases h1 : state.data.publisher = JVal.str "" <;>
  by_cases h2 : state.data.head_ref = JVal.str "" <;>
  by_cases h3 : state.data.cited_refs = JVal.str "" <;>
  simp [JVal.strict_eq, h1, h2, h3]

/-- C3: the record of a page on which no rule matches has publisher,
head_ref and cited_refs all `false`, and `scrape_to_valid` hands its state on
unchanged instead of rejecting; a record with a publisher whose head_ref and
cited_refs are the serialized empty mapping and empty list is handed on as
well. -/
theorem scrape_to_valid_passes_unmatched (stringify : JSData → String) (d : Document)
    (doconfirm : Bool) (w : World) (h : detect_publisher d = JVal.bool false) :
    scrape stringify d = Outcome.ok (unmatched_record d.location) ∧
    scrape_to_valid { doconfirm := doconfirm, data := unmatched_record d.location } w =
      (w, Deferred.resolved { doconfirm := doconfirm, data := unmatched_record d.location }) ∧
    scrape_to_valid { doconfirm := doconfirm, data := empty_fields_record d.location } w =
      (w, Deferred.resolved { doconfirm := doconfirm, data := empty_fields_record d.location }) := by
  refine ⟨scrape_unmatched stringify d h, ?_, ?_⟩
  · simp [scrape_to_valid, unmatched_record, JVal.strict_eq]
  · simp [scrape_to_valid, empty_fields_record, JVal.strict_eq]

theorem scrape_to_valid_passes_unmatched_witness :
    detect_publisher doc_empty = JVal.bool false ∧
    scrape (fun _ => "") doc_empty = Outcome.ok (unmatched_record doc_empty.location) ∧
    scrape_to_valid { doconfirm := false, data := unmatched_record doc_empty.location } {} =
      ({}, Deferred.resolved
        { doconfirm := false, data := unmatched_record doc_empty.location }) :=
  ⟨by decide,
   (scrape_to_valid_passes_unmatched (fun _ => "") doc_empty false {} (by decide)).1,
   (scrape_to_valid_passes_unmatched (fun _ => "") doc_empty false {} (by decide)).2.1⟩

/-! ## Addresses are never members of `Object.prototype` -/

theorem href_not_prototype_key (l : Location) : l.href ∉ Object_prototype_keys := by
  have hkeys : ∀ k ∈ Object_prototype_keys, ':' ∉ k.data := by decide
  intro h
  apply hkeys _ h
  simp [Location.href, String.data_append]

theorem js_typeof_undefined_href {α : Type} (o : List (String × α)) (l : Location) :
    js_typeof_undefined o l.href = (own_get o l.href).isNone := by
  simp [js_typeof_undefined, href_not_prototype_key]

theorem href_ne_proto (l : Location) : l.href ≠ "__proto__" := by
  intro h
  apply href_not_prototype_key l
  rw [h]
  decide

/-! ## The run on a page without publisher -/

/-- C4: on a page on which no rule matches, the record built from
`detect_publisher`, `extract_head_reference` and `extract_cited_references`
passes `scrape_to_valid`; with mode `noconfirm` and a store without an entry
for the page, `citelet.send` is invoked with that record and, on a `success`
answer, the `sent` store is written; with mode `confirm` the confirmation
dialog is invoked. -/
theorem unmatched_page_reaches_send (stringify : JSData → String) (d : Document)
    (env : Env) (res : Response) (st : Storage) (t : List Event)
    (h : detect_publisher d = JVal.bool false)
    (hscrape : env.scrape = some (unmatched_record d.location))
    (hsend : env.send (unmatched_record d.location) "chrome-extension" = some res)
    (hres : res.status = JVal.str "success")
    (hnew : st.sent = none) :
    scrape stringify d = Outcome.ok (unmatched_record d.location) ∧
    (st.mode = JVal.str "noconfirm" →
      (ext env { storage := st, trace := t }).1.trace =
        t ++ [Event.scrape, Event.log "Sending references...",
          Event.send (unmatched_record d.location) "chrome-extension",
          Event.log "Storing references in Chrome...",
          Event.storage_set_sent [(d.location.href, unmatched_record d.location)]] ∧
      (ext env { storage := st, trace := t }).1.storage.sent =
        some [(d.location.href, unmatched_record d.location)]) ∧
    (st.mode = JVal.str "confirm" →
      ∃ rest, (ext env { storage := st, trace := t }).1.trace =
        t ++ [Event.scrape, Event.confirm_tb] ++ rest) := by
  refine ⟨scrape_unmatched stringify d h, ?_, ?_⟩
  all_goals simp only [unmatched_record] at hsend hscrape
  · intro hmode
    have hu := js_typeof_undefined_href ([] : SentMap) d.location
    simp [ext, then_, done_, init, doconfirm_to_scrape, scrape_to_valid, valid_to_stored,
      stored_to_confirmed, confirmed_to_send, send_to_store, hmode, hscrape, hsend, hres,
      hnew, JVal.strict_eq, JVal.truthy, JVal.loose_eq_success, World.emit,
      unmatched_record, js_assign, own_set, own_get, hu, href_ne_proto]
  · intro hmode
    have hu := js_typeof_undefined_href ([] : SentMap) d.location
    cases hc : env.confirm_tb with
    | none =>
      refine ⟨[], ?_⟩
      simp [ext, then_, done_, init, doconfirm_to_scrape, scrape_to_valid, valid_to_stored,
        stored_to_confirmed, hmode, hscrape, hnew, hc,
        JVal.strict_eq, JVal.truthy, World.emit, unmatched_record, own_get, hu]
    | some c =>
      cases c with
      | false =>
        refine ⟨[Event.log "Not confirmed. Quitting..."], ?_⟩
        simp [ext, then_, done_, init, doconfirm_to_scrape, scrape_to_valid, valid_to_stored,
          stored_to_confirmed, confirmed_to_send, hmode, hscrape, hnew, hc,
          JVal.strict_eq, JVal.truthy, World.emit, unmatched_record, own_get, hu]
      | true =>
        refine ⟨[Event.log "Sending references...",
          Event.send (unmatched_record d.location) "chrome-extension",
          Event.log "Storing references in Chrome...",
          Event.storage_set_sent [(d.location.href, unmatched_record d.location)]], ?_⟩
        simp [ext, then_, done_, init, doconfirm_to_scrape, scrape_to_valid, valid_to_stored,
          stored_to_confirmed, confirmed_to_send, send_to_store, hmode, hscrape, hsend, hres,
          hnew, hc, JVal.strict_eq, JVal.truthy, JVal.loose_eq_success, World.emit,
          unmatched_record, js_assign, own_set, own_get, hu, href_ne_proto]

theorem unmatched_page_reaches_send_witness :
    detect_publisher doc_empty = JVal.bool false ∧
    count_send (ext env_unmatched { storage := { mode := JVal.str "noconfirm" } }).1.trace = 1 ∧
    (ext env_unmatched { storage := { mode := JVal.str "noconfirm" } }).1.storage.sent =
      some [(doc_empty.location.href, unmatched_record doc_empty.location)] :=
  ⟨by decide, by decide,
   ((unmatched_page_reaches_send (fun _ => "") doc_empty env_unmatched
      { status := JVal.str "success" } { mode := JVal.str "noconfirm" } []
      (by decide) rfl rfl rfl rfl).2.1 rfl).2⟩

/-! ## The dedup check -/

theorem valid_to_stored_eq (state : State) (w : World) :
    valid_to_stored state w =
      (w, Deferred.resolved { state with
        sent := JVal.bool (own_get (sent_map w.storage) state.data.url.href).isNone }) := by
  unfold valid_to_stored sent_map
  cases w.storage.sent <;> simp [js_typeof_undefined_href]

/-- C5: `valid_to_stored` followed by `stored_to_confirmed` rejects exactly
when the `sent` map of the store (empty when the key is absent) has an entry
for `state.data.url`; in that case the rest of the chain does nothing but log
the message: no confirmation dialog, no `citelet.send`, the store as it
was. -/
theorem dedup_rejects_iff_sent (env : Env) (state : State) (w : World) :
    ((then_ (valid_to_stored state) (stored_to_confirmed env) w).2 = Deferred.rejected ↔
      (own_get (sent_map w.storage) state.data.url.href).isSome = true) ∧
    ((own_get (sent_map w.storage) state.data.url.href).isSome = true →
      ext_from_valid env state w =
        (w.emit (Event.log "References already sent. Quitting..."), Deferred.rejected) ∧
      (ext_from_valid env state w).1.storage = w.storage ∧
      count_confirm (ext_from_valid env state w).1.trace = count_confirm w.trace ∧
      count_send (ext_from_valid env state w).1.trace = count_send w.trace ∧
      count_set_sent (ext_from_valid env state w).1.trace = count_set_sent w.trace) := by
  constructor
  · cases hg : own_get (sent_map w.storage) state.data.url.href with
    | some r =>
      simp [then_, valid_to_stored_eq, stored_to_confirmed, hg, JVal.truthy]
    | none =>
      cases hd : state.doconfirm <;> cases hc : env.confirm_tb <;>
        simp [then_, valid_to_stored_eq, stored_to_confirmed, hg, JVal.truthy, hd, hc]
  · intro h
    have hg : (own_get (sent_map w.storage) state.data.url.href).isNone = false := by
      cases hh : own_get (sent_map w.storage) state.data.url.href with
      | none => simp [hh] at h
      | some r => rfl
    have heq : ext_from_valid env state w =
        (w.emit (Event.log "References already sent. Quitting..."), Deferred.rejected) := by
      simp [ext_from_valid, then_, done_, valid_to_stored_eq, stored_to_confirmed, hg,
        JVal.truthy]
    rw [heq]
    simp [World.emit, count_confirm, count_send, count_set_sent, List.filter_append]

theorem dedup_rejects_iff_sent_witness :
    (own_get (sent_map world_already_sent.storage)
      state_example.data.url.href).isSome = true ∧
    ext_from_valid env_unmatched state_example world_already_sent =
      (world_already_sent.emit (Event.log "References already sent. Quitting..."),
        Deferred.rejected) :=
  ⟨by decide,
   ((dedup_rejects_iff_sent env_unmatched state_example world_already_sent).2
      (by decide)).1⟩

/-! ## Recording a submission -/

/-- C7: with `res.status` equal to `'success'`, `send_to_store` leaves a
`sent` map in which `state.data.url` is mapped to `state.data` and every other
url keeps the entry it had (none, when it had none), and does not touch the
mode; with any other status the store and the trace are left as they were. -/
theorem send_to_store_frame (state : State) (w : World) (res : Response)
    (hres : state.res = some res) :
    (res.status = JVal.str "success" →
      ∃ m, (send_to_store state w).storage.sent = some m ∧
        own_get m state.data.url.href = some state.data ∧
        (∀ k, k ≠ state.data.url.href → own_get m k = own_get (sent_map w.storage) k) ∧
        (send_to_store state w).storage.mode = w.storage.mode) ∧
    (res.status ≠ JVal.str "success" → send_to_store state w = w) := by
  constructor
  · intro hs
    refine ⟨own_set (sent_map w.storage) state.data.url.href state.data, ?_, ?_, ?_, ?_⟩
    · simp [send_to_store, hres, hs, JVal.loose_eq_success, World.emit, js_assign,
        href_ne_proto, sent_map]
    · exact own_get_own_set_same _ _ _
    · intro k hk
      exact own_get_own_set_ne _ _ _ _ hk
    · simp [send_to_store, hres, hs, JVal.loose_eq_success, World.emit]
  · intro hs
    simp [send_to_store, hres, hs, JVal.loose_eq_success]

theorem send_to_store_frame_witness :
    ∃ m, (send_to_store { state_example with res := some { status := JVal.str "success" } }
        {}).storage.sent = some m ∧
      own_get m record_example.url.href = some record_example :=
  (((send_to_store_frame { state_example with res := some { status := JVal.str "success" } }
      {} { status := JVal.str "success" } rfl).1 rfl).imp
    (fun _ h => ⟨h.1, h.2.1⟩))

/-! ## The confirmation gate -/

/-- C8: for a state that passed the dedup check with `doconfirm = false`,
`stored_to_confirmed` sets `confirmed` to `true` and performs no action (the
confirmation dialog is not invoked); `confirmed_to_send` then logs and
invokes `citelet.send` once, with `state.data` and the source tag
`chrome-extension`. -/
theorem noconfirm_skips_dialog (env : Env) (state : State) (w : World)
    (hd : state.doconfirm = false) (hs : state.sent.truthy = true) :
    stored_to_confirmed env state w =
      (w, Deferred.resolved { state with confirmed := JVal.bool true }) ∧
    (then_ (stored_to_confirmed env state) (confirmed_to_send env) w).1.trace =
      w.trace ++ [Event.log "Sending references...",
        Event.send state.data "chrome-extension"] ∧
    count_confirm (then_ (stored_to_confirmed env state) (confirmed_to_send env) w).1.trace =
      count_confirm w.trace ∧
    count_send (then_ (stored_to_confirmed env state) (confirmed_to_send env) w).1.trace =
      count_send w.trace + 1 := by
  have h1 : stored_to_confirmed env state w =
      (w, Deferred.resolved { state with confirmed := JVal.bool true }) := by
    simp [stored_to_confirmed, hd, hs]
  have h2 : (then_ (stored_to_confirmed env state) (confirmed_to_send env) w).1.trace =
      w.trace ++ [Event.log "Sending references...",
        Event.send state.data "chrome-extension"] := by
    cases hsend : env.send state.data "chrome-extension" <;>
      simp [then_, h1, confirmed_to_send, JVal.truthy, hsend, World.emit]
  refine ⟨h1, h2, ?_, ?_⟩
  · rw [h2]; simp [count_confirm, List.filter_append]
  · rw [h2]; simp [count_send, List.filter_append]

theorem noconfirm_skips_dialog_witness :
    count_send (then_ (stored_to_confirmed env_unmatched
        { state_example with sent := JVal.bool true })
      (confirmed_to_send env_unmatched) {}).1.trace = 1 :=
  (noconfirm_skips_dialog env_unmatched { state_example with sent := JVal.bool true } {}
    rfl rfl).2.2.2

/-- C9: for a state that passed the dedup check with `doconfirm = true`, the
dialog is invoked; `citelet.send` is invoked (once) exactly when the dialog
resolved with `true`; when it resolved with `false` the chain is rejected
with nothing done but the dialog and the log message: no `citelet.send`, the
store as it was. -/
theorem confirm_gates_send (env : Env) (state : State) (w : World)
    (hd : state.doconfirm = true) (hs : state.sent.truthy = true) :
    (count_send (ext_from_stored env state w).1.trace = count_send w.trace + 1 ↔
      env.confirm_tb = some true) ∧
    (env.confirm_tb ≠ some true →
      count_send (ext_from_stored env state w).1.trace = count_send w.trace) ∧
    (env.confirm_tb = some false →
      ext_from_stored env state w =
        ((w.emit Event.confirm_tb).emit (Event.log "Not confirmed. Quitting..."),
          Deferred.rejected) ∧
      (ext_from_stored env state w).1.storage = w.storage ∧
      count_set_sent (ext_from_stored env state w).1.trace = count_set_sent w.trace) := by
  cases hc : env.confirm_tb with
  | none =>
    have h1 : stored_to_confirmed env state w = (w.emit Event.confirm_tb, Deferred.pending) := by
      simp [stored_to_confirmed, hd, hs, hc]
    simp [ext_from_stored, then_, done_, h1, World.emit, count_send, List.filter_append]
  | some c =>
    have h1 : stored_to_confirmed env state w =
        (w.emit Event.confirm_tb,
          Deferred.resolved { state with confirmed := JVal.bool c }) := by
      simp [stored_to_confirmed, hd, hs, hc]
    cases c with
    | false =>
      simp [ext_from_stored, then_, done_, h1, confirmed_to_send,
        World.emit, count_send, count_set_sent, List.filter_append, JVal.truthy]
    | true =>
      cases hsend : env.send state.data "chrome-extension" with
      | none =>
        simp [ext_from_stored, then_, done_, h1, confirmed_to_send,
          hsend, World.emit, count_send, List.filter_append, JVal.truthy]
      | some res =>
        by_cases hst : res.status = JVal.str "success"
        · simp [ext_from_stored, then_, done_, h1, confirmed_to_send,
            send_to_store, hsend, hst, World.emit, count_send, List.filter_append,
            JVal.truthy, JVal.loose_eq_success]
        · simp [ext_from_stored, then_, done_, h1, confirmed_to_send,
            send_to_store, hsend, hst, World.emit, count_send, List.filter_append,
            JVal.truthy, JVal.loose_eq_success]

theorem confirm_gates_send_witness :
    ext_from_stored env_declined state_confirm {} =
      ((({} : World).emit Event.confirm_tb).emit (Event.log "Not confirmed. Quitting..."),
        Deferred.rejected) :=
  ((confirm_gates_send env_declined state_confirm {} rfl rfl).2.2 rfl).1

/-! ## The confirmation mode -/

theorem init_cases (w : World) :
    (w.storage.mode = JVal.undef →
      init w = ({ storage := { w.storage with mode := JVal.str "confirm" },
                  trace := w.trace ++ [Event.storage_set_mode (JVal.str "confirm")] },
                Deferred.resolved { doconfirm := true })) ∧
    (w.storage.mode = JVal.str "confirm" →
      init w = (w, Deferred.resolved { doconfirm := true })) ∧
    (w.storage.mode = JVal.str "noconfirm" →
      init w = (w, Deferred.resolved { doconfirm := false })) := by
  refine ⟨?_, ?_, ?_⟩
  · intro h; simp [init, h, JVal.strict_eq, World.emit]
  · intro h; simp [init, h, JVal.strict_eq]
  · intro h; simp [init, h, JVal.strict_eq]

/-- C10: without a stored `mode`, `init` writes `confirm` to the store and
resolves with `doconfirm = true`; with the stored mode `confirm` it resolves
with `doconfirm = true`, with `noconfirm` with `doconfirm = false`, in both
cases leaving the store and the trace as they were. -/
theorem init_reads_mode (w : World) :
    (w.storage.mode = JVal.undef →
      init w = ({ storage := { w.storage with mode := JVal.str "confirm" },
                  trace := w.trace ++ [Event.storage_set_mode (JVal.str "confirm")] },
                Deferred.resolved { doconfirm := true })) ∧
    (w.storage.mode = JVal.str "confirm" →
      init w = (w, Deferred.resolved { doconfirm := true })) ∧
    (w.storage.mode = JVal.str "noconfirm" →
      init w = (w, Deferred.resolved { doconfirm := false })) := by
  refine ⟨?_, ?_, ?_⟩ <;> intro h <;> simp [init, h, JVal.strict_eq, World.emit]

theorem init_reads_mode_witness :
    init {} = ({ storage := { mode := JVal.str "confirm" },
                 trace := [Event.storage_set_mode (JVal.str "confirm")] },
               Deferred.resolved { doconfirm := true }) ∧
    init { storage := { mode := JVal.str "confirm" } } =
      ({ storage := { mode := JVal.str "confirm" } }, Deferred.resolved { doconfirm := true }) ∧
    init { storage := { mode := JVal.str "noconfirm" } } =
      ({ storage := { mode := JVal.str "noconfirm" } },
        Deferred.resolved { doconfirm := false }) :=
  ⟨(init_reads_mode {}).1 rfl,
   (init_reads_mode { storage := { mode := JVal.str "confirm" } }).2.1 rfl,
   (init_reads_mode { storage := { mode := JVal.str "noconfirm" } }).2.2 rfl⟩

/-! ## Two runs on the same url -/

theorem scrape_to_valid_of_passes (state : State) (w : World)
    (hv : passes_validity state.data) :
    scrape_to_valid state w = (w, Deferred.resolved state) := by
  obtain ⟨h1, h2, h3⟩ := hv
  simp [scrape_to_valid, JVal.strict_eq, h1, h2, h3]

theorem scrape_to_valid_of_fails (state : State) (w : World)
    (hv : ¬ passes_validity state.data) :
    scrape_to_valid state w = (w, Deferred.rejected) := by
  unfold passes_validity at hv
  by_cases h1 : state.data.publisher = JVal.str "" <;>
  by_cases h2 : state.data.head_ref = JVal.str "" <;>
  by_cases h3 : state.data.cited_refs = JVal.str "" <;>
  simp [scrape_to_valid, JVal.strict_eq, h1, h2, h3] at hv ⊢

theorem ext_after_init (env : Env) (w wi : World) (b : Bool) (r : Record)
    (hinit : init w = (wi, Deferred.resolved { doconfirm := b }))
    (hs : env.scrape = some r) :
    ext env w = ext_from_scraped env { doconfirm := b, data := r } (wi.emit Event.scrape) := by
  simp [ext, ext_from_scraped, then_, done_, hinit, doconfirm_to_scrape, hs]

theorem run_confirmed (env : Env) (state : State) (w : World) (res : Response)
    (hv : passes_validity state.data)
    (hnew : own_get (sent_map w.storage) state.data.url.href = none)
    (hconf : state.doconfirm = true → env.confirm_tb = some true)
    (hsend : env.send state.data "chrome-extension" = some res)
    (hres : res.status = JVal.str "success") :
    ext_from_scraped env state w =
      ({ storage := { w.storage with
            sent := some (own_set (sent_map w.storage) state.data.url.href state.data) },
         trace := w.trace ++ (if state.doconfirm then [Event.confirm_tb] else []) ++
           [Event.log "Sending references...", Event.send state.data "chrome-extension",
            Event.log "Storing references in Chrome...",
            Event.storage_set_sent
              (own_set (sent_map w.storage) state.data.url.href state.data)] },
       Deferred.resolved { state with sent := JVal.bool true, confirmed := JVal.bool true,
                                      res := some res }) := by
  have hstore : ∀ (st : State) (w' : World), st.res = some res →
      w'.storage = w.storage → st.data = state.data →
      send_to_store st w' =
        { storage := { w.storage with
            sent := some (own_set (sent_map w.storage) state.data.url.href state.data) },
          trace := w'.trace ++ [Event.log "Storing references in Chrome...",
            Event.storage_set_sent
              (own_set (sent_map w.storage) state.data.url.href state.data)] } := by
    intro st w' h1 h2 h3
    have h4 : (match w'.storage.sent with
        | some sent => sent
        | none => []) = sent_map w.storage := by rw [h2]; rfl
    simp [send_to_store, h1, hres, JVal.loose_eq_success, World.emit, js_assign,
      href_ne_proto, h2, h3, h4]
    rfl
  have hvts : valid_to_stored state w =
      (w, Deferred.resolved { state with sent := JVal.bool true }) := by
    rw [valid_to_stored_eq, hnew]; rfl
  cases hd : state.doconfirm with
  | false =>
    have hstc : stored_to_confirmed env { state with sent := JVal.bool true } w =
        (w, Deferred.resolved
          { state with sent := JVal.bool true, confirmed := JVal.bool true }) := by
      simp [stored_to_confirmed, hd, JVal.truthy]
    have hcts : confirmed_to_send env
        { state with sent := JVal.bool true, confirmed := JVal.bool true } w =
        ((w.emit (Event.log "Sending references...")).emit
            (Event.send state.data "chrome-extension"),
          Deferred.resolved { state with sent := JVal.bool true, confirmed := JVal.bool true,
                                         res := some res }) := by
      simp [confirmed_to_send, JVal.truthy, hsend]
    simp only [ext_from_scraped, then_, done_, scrape_to_valid_of_passes state w hv, hvts,
      hstc, hcts]
    rw [hstore { state with sent := JVal.bool true, confirmed := JVal.bool true,
                            res := some res }
      ((w.emit (Event.log "Sending references...")).emit
        (Event.send state.data "chrome-extension")) rfl rfl rfl]
    simp [World.emit, hd]
  | true =>
    have hc := hconf hd
    have hstc : stored_to_confirmed env { state with sent := JVal.bool true } w =
        (w.emit Event.confirm_tb, Deferred.resolved
          { state with sent := JVal.bool true, confirmed := JVal.bool true }) := by
      simp [stored_to_confirmed, hd, hc, JVal.truthy]
    have hcts : confirmed_to_send env
        { state with sent := JVal.bool true, confirmed := JVal.bool true }
        (w.emit Event.confirm_tb) =
        (((w.emit Event.confirm_tb).emit (Event.log "Sending references...")).emit
            (Event.send state.data "chrome-extension"),
          Deferred.resolved { state with sent := JVal.bool true, confirmed := JVal.bool true,
                                         res := some res }) := by
      simp [confirmed_to_send, JVal.truthy, hsend]
    simp only [ext_from_scraped, then_, done_, scrape_to_valid_of_passes state w hv, hvts,
      hstc, hcts]
    rw [hstore { state with sent := JVal.bool true, confirmed := JVal.bool true,
                            res := some res }
      (((w.emit Event.confirm_tb).emit (Event.log "Sending references...")).emit
        (Event.send state.data "chrome-extension")) rfl rfl rfl]
    simp [World.emit, hd]

theorem run_duplicate (env : Env) (state : State) (w : World) (x : Record)
    (hin : own_get (sent_map w.storage) state.data.url.href = some x) :
    (passes_validity state.data →
      ext_from_scraped env state w =
        (w.emit (Event.log "References already sent. Quitting..."), Deferred.rejected)) ∧
    (¬ passes_validity state.data → ext_from_scraped env state w = (w, Deferred.rejected)) := by
  constructor
  · intro hv
    simp [ext_from_scraped, then_, done_, scrape_to_valid_of_passes state w hv,
      valid_to_stored_eq, hin, stored_to_confirmed, JVal.truthy]
  · intro hv
    simp [ext_from_scraped, then_, done_, scrape_to_valid_of_fails state w hv]

/-- C6: a first run that passes the validity check, finds no entry for the
url, is confirmed and gets the answer `success` resolves and leaves the record
in the `sent` map; a second run on a record with the same url, started from
the world the first run left, is rejected and leaves the store untouched; over
both runs `citelet.send` is invoked once and the `sent` map written once; when
the second record passes `scrape_to_valid` (as the record of the first run
does) the rejection comes from `stored_to_confirmed`, which logs its
message. -/
theorem second_run_is_deduplicated (env1 env2 : Env) (w0 : World) (r r2 : Record)
    (res : Response)
    (hmode : w0.storage.mode = JVal.undef ∨ w0.storage.mode = JVal.str "confirm" ∨
      w0.storage.mode = JVal.str "noconfirm")
    (hscrape1 : env1.scrape = some r)
    (hvalid : passes_validity r)
    (hnew : own_get (sent_map w0.storage) r.url.href = none)
    (hconf : w0.storage.mode ≠ JVal.str "noconfirm" → env1.confirm_tb = some true)
    (hsend : env1.send r "chrome-extension" = some res)
    (hres : res.status = JVal.str "success")
    (hscrape2 : env2.scrape = some r2)
    (hurl : r2.url = r.url) :
    (∃ s, (ext env1 w0).2 = Deferred.resolved s) ∧
    own_get (sent_map (ext env1 w0).1.storage) r.url.href = some r ∧
    (ext env2 (ext env1 w0).1).2 = Deferred.rejected ∧
    (ext env2 (ext env1 w0).1).1.storage = (ext env1 w0).1.storage ∧
    count_send (ext env2 (ext env1 w0).1).1.trace = count_send w0.trace + 1 ∧
    count_set_sent (ext env2 (ext env1 w0).1).1.trace = count_set_sent w0.trace + 1 ∧
    (passes_validity r2 →
      (ext env2 (ext env1 w0).1).1.trace =
        (ext env1 w0).1.trace ++
          [Event.scrape, Event.log "References already sent. Quitting..."]) := by
  -- the first run
  obtain ⟨wi, b, hinit, hsent_i, hmode_i, hb, hcs, hcss⟩ :
      ∃ wi b, init w0 = (wi, Deferred.resolved { doconfirm := b }) ∧
        wi.storage.sent = w0.storage.sent ∧
        (wi.storage.mode = if b then JVal.str "confirm" else JVal.str "noconfirm") ∧
        (b = true → env1.confirm_tb = some true) ∧
        count_send wi.trace = count_send w0.trace ∧
        count_set_sent wi.trace = count_set_sent w0.trace := by
    rcases hmode with h | h | h
    · refine ⟨_, true, (init_cases w0).1 h, rfl, rfl, ?_, ?_, ?_⟩
      · intro _; exact hconf (by rw [h]; decide)
      · simp [count_send, List.filter_append]
      · simp [count_set_sent, List.filter_append]
    · refine ⟨w0, true, (init_cases w0).2.1 h, rfl, by simp [h], ?_, rfl, rfl⟩
      intro _; exact hconf (by rw [h]; decide)
    · exact ⟨w0, false, (init_cases w0).2.2 h, rfl, by simp [h], by simp, rfl, rfl⟩
  have hmap_i : sent_map (wi.emit Event.scrape).storage = sent_map w0.storage := by
    simp [sent_map, World.emit, hsent_i]
  have hmap_wi : sent_map wi.storage = sent_map w0.storage := by
    simp [sent_map, hsent_i]
  have hrun1 := run_confirmed env1 { doconfirm := b, data := r } (wi.emit Event.scrape) res
    hvalid (by rw [hmap_i]; exact hnew) hb hsend hres
  rw [← ext_after_init env1 w0 wi b r hinit hscrape1] at hrun1
  -- the world after the first run
  have hstore1 : (ext env1 w0).1.storage =
      { mode := wi.storage.mode,
        sent := some (own_set (sent_map w0.storage) r.url.href r) } := by
    rw [hrun1]; simp [World.emit, hmap_wi]
  have hin1 : own_get (sent_map (ext env1 w0).1.storage) r.url.href = some r := by
    rw [hstore1]; simp [sent_map, own_get_own_set_same]
  have hcs1 : count_send (ext env1 w0).1.trace = count_send w0.trace + 1 := by
    rw [hrun1]
    cases b <;> simp [World.emit, count_send, List.filter_append] <;>
      simpa [count_send] using hcs
  have hcss1 : count_set_sent (ext env1 w0).1.trace = count_set_sent w0.trace + 1 := by
    rw [hrun1]
    cases b <;> simp [World.emit, count_set_sent, List.filter_append] <;>
      simpa [count_set_sent] using hcss
  -- the second run
  have hinit2 : init (ext env1 w0).1 =
      ((ext env1 w0).1, Deferred.resolved { doconfirm := b }) := by
    cases b
    · exact (init_cases _).2.2 (by rw [hstore1]; simpa using hmode_i)
    · exact (init_cases _).2.1 (by rw [hstore1]; simpa using hmode_i)
  have hext2 := ext_after_init env2 (ext env1 w0).1 (ext env1 w0).1 b r2 hinit2 hscrape2
  have hin2 : own_get (sent_map ((ext env1 w0).1.emit Event.scrape).storage)
      ({ doconfirm := b, data := r2 } : State).data.url.href = some r := by
    simpa [World.emit, hurl] using hin1
  obtain ⟨hdup_v, hdup_n⟩ := run_duplicate env2 { doconfirm := b, data := r2 }
    ((ext env1 w0).1.emit Event.scrape) r hin2
  refine ⟨⟨_, by rw [hrun1]⟩, hin1, ?_, ?_, ?_, ?_, ?_⟩
  · by_cases hv : passes_validity r2
    · rw [hext2, hdup_v hv]
    · rw [hext2, hdup_n hv]
  · by_cases hv : passes_validity r2
    · rw [hext2, hdup_v hv]; simp [World.emit]
    · rw [hext2, hdup_n hv]; simp [World.emit]
  · by_cases hv : passes_validity r2
    · rw [hext2, hdup_v hv, ← hcs1]; simp [World.emit, count_send, List.filter_append]
    · rw [hext2, hdup_n hv, ← hcs1]; simp [World.emit, count_send, List.filter_append]
  · by_cases hv : passes_validity r2
    · rw [hext2, hdup_v hv, ← hcss1]; simp [World.emit, count_set_sent, List.filter_append]
    · rw [hext2, hdup_n hv, ← hcss1]; simp [World.emit, count_set_sent, List.filter_append]
  · intro hv
    rw [hext2, hdup_v hv]; simp [World.emit]

theorem second_run_is_deduplicated_witness :
    (ext env_success (ext env_success {}).1).2 = Deferred.rejected ∧
    count_send (ext env_success (ext env_success {}).1).1.trace = 1 ∧
    count_set_sent (ext env_success (ext env_success {}).1).1.trace = 1 :=
  have h := second_run_is_deduplicated env_success env_success {} record_example
    record_example { status := JVal.str "success" } (Or.inl rfl) rfl
    (by unfold passes_validity; decide) (by decide) (fun _ => rfl) rfl rfl rfl rfl
  ⟨h.2.2.1, h.2.2.2.2.1, h.2.2.2.2.2.1⟩

/-! ## A failing request -/

/-- C11 as stated fails: when the request fails, the deferred returned by
`confirmed_to_send` is not rejected, and neither is the chain of `ext`. -/
theorem send_failure_not_rejected :
    (confirmed_to_send env_send_fails state_confirmed {}).2 ≠ Deferred.rejected ∧
    (ext env_send_fails { storage := { mode := JVal.str "confirm" } }).2 ≠
      Deferred.rejected := by
  decide

/-- C11, amended: when the request of `citelet.send` fails, the deferred
returned by `confirmed_to_send` is never settled, so `send_to_store` does not
run and the store is left as it was; a run of `ext` in which the request
fails never resolves, leaves the `sent` map as it was, and stays pending
whenever `citelet.send` was invoked. -/
theorem send_failure_leaves_chain_pending (env : Env) (w : World)
    (hfail : ∀ data source, env.send data source = none) :
    (∀ state, state.confirmed.truthy = true →
      confirmed_to_send env state w =
        ((w.emit (Event.log "Sending references...")).emit
          (Event.send state.data "chrome-extension"), Deferred.pending) ∧
      (done_ (confirmed_to_send env state) send_to_store w).2 = Deferred.pending ∧
      (done_ (confirmed_to_send env state) send_to_store w).1.storage = w.storage) ∧
    (∀ s, (ext env w).2 ≠ Deferred.resolved s) ∧
    (ext env w).1.storage.sent = w.storage.sent ∧
    count_set_sent (ext env w).1.trace = count_set_sent w.trace ∧
    (count_send (ext env w).1.trace ≠ count_send w.trace →
      (ext env w).2 = Deferred.pending) := by
  have hcts : ∀ (state : State) (w' : World), state.confirmed.truthy = true →
      confirmed_to_send env state w' =
        ((w'.emit (Event.log "Sending references...")).emit
          (Event.send state.data "chrome-extension"), Deferred.pending) := by
    intro state w' h
    simp [confirmed_to_send, h, hfail]
  have hcts' : ∀ (state : State) (w' : World), state.confirmed.truthy = false →
      confirmed_to_send env state w' =
        (w'.emit (Event.log "Not confirmed. Quitting..."), Deferred.rejected) := by
    intro state w' h
    simp [confirmed_to_send, h]
  refine ⟨?_, ?_⟩
  · intro state h
    refine ⟨hcts state w h, ?_, ?_⟩ <;> simp [done_, hcts state w h, World.emit]
  · -- every branch of the chain
    have key : ∀ (state : State) (w' : World),
        (∀ s, (ext_from_scraped env state w').2 ≠ Deferred.resolved s) ∧
        (ext_from_scraped env state w').1.storage = w'.storage ∧
        count_set_sent (ext_from_scraped env state w').1.trace = count_set_sent w'.trace ∧
        (count_send (ext_from_scraped env state w').1.trace ≠ count_send w'.trace →
          (ext_from_scraped env state w').2 = Deferred.pending) := by
      intro state w'
      by_cases hv : passes_validity state.data
      · cases hg : (own_get (sent_map w'.storage) state.data.url.href).isNone with
        | false =>
          simp [ext_from_scraped, then_, done_, scrape_to_valid_of_passes state w' hv,
            valid_to_stored_eq, hg, stored_to_confirmed, JVal.truthy, World.emit,
            count_send, count_set_sent, List.filter_append]
        | true =>
          cases hd : state.doconfirm with
          | false =>
            simp [ext_from_scraped, then_, done_, scrape_to_valid_of_passes state w' hv,
              valid_to_stored_eq, hg, stored_to_confirmed, hd, JVal.truthy, hcts, World.emit,
              count_send, count_set_sent, List.filter_append]
          | true =>
            cases hc : env.confirm_tb with
            | none =>
              simp [ext_from_scraped, then_, done_, scrape_to_valid_of_passes state w' hv,
                valid_to_stored_eq, hg, stored_to_confirmed, hd, hc, JVal.truthy, World.emit,
                count_send, count_set_sent, List.filter_append]
            | some c =>
              cases c with
              | false =>
                simp [ext_from_scraped, then_, done_, scrape_to_valid_of_passes state w' hv,
                  valid_to_stored_eq, hg, stored_to_confirmed, hd, hc, JVal.truthy, hcts',
                  World.emit, count_send, count_set_sent, List.filter_append]
              | true =>
                simp [ext_from_scraped, then_, done_, scrape_to_valid_of_passes state w' hv,
                  valid_to_stored_eq, hg, stored_to_confirmed, hd, hc, JVal.truthy, hcts,
                  World.emit, count_send, count_set_sent, List.filter_append]
      · simp [ext_from_scraped, then_, done_, scrape_to_valid_of_fails state w' hv]
    -- the start of the chain
    have hinit : (∃ wi b, init w = (wi, Deferred.resolved { doconfirm := b }) ∧
          wi.storage.sent = w.storage.sent ∧ count_send wi.trace = count_send w.trace ∧
          count_set_sent wi.trace = count_set_sent w.trace) ∨
        init w = (w, Deferred.pending) := by
      by_cases h1 : w.storage.mode = JVal.undef
      · refine Or.inl ⟨_, true, (init_cases w).1 h1, rfl, ?_, ?_⟩
        · simp [count_send, List.filter_append]
        · simp [count_set_sent, List.filter_append]
      · by_cases h2 : w.storage.mode = JVal.str "noconfirm"
        · exact Or.inl ⟨w, false, (init_cases w).2.2 h2, rfl, rfl, rfl⟩
        · by_cases h3 : w.storage.mode = JVal.str "confirm"
          · exact Or.inl ⟨w, true, (init_cases w).2.1 h3, rfl, rfl, rfl⟩
          · exact Or.inr (by simp [init, h1, h2, h3, JVal.strict_eq])
    rcases hinit with ⟨wi, b, hi, hsent, hcs, hcss⟩ | hi
    · cases hs : env.scrape with
      | none =>
        simp [ext, then_, done_, hi, doconfirm_to_scrape, hs, World.emit, count_send,
          count_set_sent, List.filter_append, hsent]
        simpa [count_set_sent] using hcss
      | some r =>
        rw [ext_after_init env w wi b r hi hs]
        obtain ⟨k1, k2, k3, k4⟩ := key { doconfirm := b, data := r } (wi.emit Event.scrape)
        refine ⟨k1, by rw [k2]; exact hsent, ?_, ?_⟩
        · rw [k3, ← hcss]; simp [World.emit, count_set_sent, List.filter_append]
        · intro h; apply k4
          rw [← hcs] at h
          simpa [World.emit, count_send, List.filter_append] using h
    · simp [ext, then_, done_, hi]

theorem send_failure_leaves_chain_pending_witness :
    (ext env_send_fails { storage := { mode := JVal.str "confirm" } }).2 = Deferred.pending :=
  (send_failure_leaves_chain_pending env_send_fails
    { storage := { mode := JVal.str "confirm" } } (fun _ _ => rfl)).2.2.2.2 (by decide)

/-! ## A mode that is neither `confirm` nor `noconfirm` -/

/-- C17: with a stored mode other than `confirm` and `noconfirm`, the
deferred of `init` stays pending and `ext` does nothing: the world (store
and trace) is as it was, so the page is not scraped, neither the dialog nor
`citelet.send` is invoked, and the store is not written. -/
theorem unknown_mode_stalls (env : Env) (w : World)
    (hstored : w.storage.mode ≠ JVal.undef)
    (h1 : w.storage.mode ≠ JVal.str "confirm")
    (h2 : w.storage.mode ≠ JVal.str "noconfirm") :
    init w = (w, Deferred.pending) ∧ ext env w = (w, Deferred.pending) := by
  have hi : init w = (w, Deferred.pending) := by
    simp [init, hstored, h1, h2, JVal.strict_eq]
  exact ⟨hi, by simp [ext, then_, done_, hi]⟩

theorem unknown_mode_stalls_witness :
    ext env_success { storage := { mode := JVal.str "always" } } =
      ({ storage := { mode := JVal.str "always" } }, Deferred.pending) :=
  (unknown_mode_stalls env_success { storage := { mode := JVal.str "always" } }
    (by decide) (by decide) (by decide)).2

/-! ## The extractor registries -/

theorem detect_loop_mem (d : Document) (nm : String) :
    ∀ (rs : List (String × (Document → JVal))),
      detect_loop d rs = JVal.str nm → nm ∈ rs.map (fun r => r.1) := by
  intro rs
  induction rs with
  | nil => intro h; simp [detect_loop] at h
  | cons hd tl ih =>
    obtain ⟨k, f⟩ := hd
    intro h
    cases ht : (f d).truthy with
    | true =>
      simp [detect_loop, ht] at h
      simp [h]
    | false =>
      simp only [detect_loop, ht] at h
      simp [ih (by simpa using h)]

theorem own_get_none_of_not_mem {α : Type} (k : String) :
    ∀ (o : List (String × α)), k ∉ o.map (fun r => r.1) → own_get o k = none := by
  intro o
  induction o with
  | nil => intro _; rfl
  | cons hd tl ih =>
    obtain ⟨k', v⟩ := hd
    intro h
    simp at h
    have hne : ¬ k' = k := fun e => h.1 e.symm
    simp [own_get, hne, ih (by simpa using h.2)]

theorem extract_head_reference_own (stringify : JSData → String) (d : Document)
    (k : String) (f : Document → Outcome HeadInfo)
    (h : own_get head_ref_extractors k = some f) :
    extract_head_reference stringify d (JVal.str k) =
      match f d with
      | Outcome.ok head_ref => Outcome.ok (JVal.str (stringify (JSData.obj head_ref)))
      | Outcome.throws e => Outcome.throws e
      | Outcome.builtin m => Outcome.builtin m := by
  simp [extract_head_reference, JVal.to_key, js_in, h]

theorem extract_cited_references_own (stringify : JSData → String) (d : Document)
    (k : String) (f : Document → CitedResult)
    (h : own_get cited_ref_extractors k = some f) :
    extract_cited_references stringify d (JVal.str k) =
      match f d with
      | CitedResult.jsfalse => Outcome.throws JSError.TypeError
      | CitedResult.jq refs =>
        Outcome.ok (JVal.str (stringify (JSData.arr (refs.map (fun n => n.innerHTML))))) := by
  simp [extract_cited_references, JVal.to_key, js_in, h]

theorem extract_unregistered (stringify : JSData → String) (d : Document) (v : JVal)
    (hh : v.to_key ∉ head_ref_extractors.map (fun r => r.1))
    (hc : v.to_key ∉ cited_ref_extractors.map (fun r => r.1))
    (hp : v.to_key ∉ Object_prototype_keys) :
    extract_head_reference stringify d v = Outcome.ok (JVal.bool false) ∧
    extract_cited_references stringify d v = Outcome.ok (JVal.bool false) := by
  constructor
  · simp [extract_head_reference, js_in, own_get_none_of_not_mem _ _ hh, hp]
  · simp [extract_cited_references, js_in, own_get_none_of_not_mem _ _ hc, hp]

theorem registered_everywhere :
    ∀ nm ∈ publisher_rules.map (fun r => r.1),
      (own_get head_ref_extractors nm).isSome = true ∧
      (own_get cited_ref_extractors nm).isSome = true := by
  decide

/-- C12: for the name `toString`, for which no extractor is registered, the
test `publisher in head_ref_extractors` succeeds through the member inherited
from `Object.prototype`: neither function answers `false`, the inherited
member is called instead; the no-match value `false` of `detect_publisher`
is answered with `false`. -/
theorem extract_inherited_name_not_unsupported (stringify : JSData → String)
    (d : Document) :
    (own_get head_ref_extractors "toString").isNone = true ∧
    (own_get cited_ref_extractors "toString").isNone = true ∧
    extract_head_reference stringify d (JVal.str "toString") = Outcome.builtin "toString" ∧
    extract_cited_references stringify d (JVal.str "toString") = Outcome.builtin "toString" ∧
    extract_head_reference stringify d (JVal.bool false) = Outcome.ok (JVal.bool false) ∧
    extract_cited_references stringify d (JVal.bool false) = Outcome.ok (JVal.bool false) := by
  have h1 : (own_get head_ref_extractors "toString").isNone = true := by decide
  have h2 : (own_get cited_ref_extractors "toString").isNone = true := by decide
  have h3 : js_in "toString" head_ref_extractors = true := by decide
  have h4 : js_in "toString" cited_ref_extractors = true := by decide
  refine ⟨h1, h2, ?_, ?_, ?_⟩
  · rw [Option.isNone_iff_eq_none] at h1
    simp [extract_head_reference, JVal.to_key, h3, h1]
  · rw [Option.isNone_iff_eq_none] at h2
    simp [extract_cited_references, JVal.to_key, h4, h2]
  · exact extract_unregistered stringify d (JVal.bool false) (by decide) (by decide) (by decide)

/-- C13: the three registries list the same twelve names in the same order;
for every name `detect_publisher` returns, both extraction functions find the
extractor registered under that name, run it, and do not answer with the
unsupported value `false`. -/
theorem registries_share_names (stringify : JSData → String) (d : Document) (nm : String)
    (h : detect_publisher d = JVal.str nm) :
    head_ref_extractors.map (fun r => r.1) = publisher_rules.map (fun r => r.1) ∧
    cited_ref_extractors.map (fun r => r.1) = publisher_rules.map (fun r => r.1) ∧
    (∃ f, own_get head_ref_extractors nm = some f ∧
      extract_head_reference stringify d (JVal.str nm) =
        (match f d with
         | Outcome.ok head_ref => Outcome.ok (JVal.str (stringify (JSData.obj head_ref)))
         | Outcome.throws e => Outcome.throws e
         | Outcome.builtin m => Outcome.builtin m)) ∧
    (∃ g, own_get cited_ref_extractors nm = some g ∧
      extract_cited_references stringify d (JVal.str nm) =
        (match g d with
         | CitedResult.jsfalse => Outcome.throws JSError.TypeError
         | CitedResult.jq refs =>
           Outcome.ok (JVal.str (stringify (JSData.arr (refs.map (fun n => n.innerHTML))))))) ∧
    extract_head_reference stringify d (JVal.str nm) ≠ Outcome.ok (JVal.bool false) ∧
    extract_cited_references stringify d (JVal.str nm) ≠ Outcome.ok (JVal.bool false) := by
  have hmem := detect_loop_mem d nm publisher_rules h
  obtain ⟨hh, hc⟩ := registered_everywhere nm hmem
  obtain ⟨f, hf⟩ := Option.isSome_iff_exists.mp hh
  obtain ⟨g, hg⟩ := Option.isSome_iff_exists.mp hc
  have e1 := extract_head_reference_own stringify d nm f hf
  have e2 := extract_cited_references_own stringify d nm g hg
  refine ⟨by decide, by decide, ⟨f, hf, e1⟩, ⟨g, hg, e2⟩, ?_, ?_⟩
  · rw [e1]; cases f d <;> simp
  · rw [e2]; cases g d <;> simp

theorem registries_share_names_witness :
    extract_head_reference (fun _ => "") doc_two_titles (JVal.str "sciencedirect") ≠
      Outcome.ok (JVal.bool false) :=
  (registries_share_names (fun _ => "") doc_two_titles "sciencedirect" (by decide)).2.2.2.2.1

/-! ## Cited references of `apa` -/

/-- C14: on a page without the link `a[title="References"][href="#toc"]`,
or whose link has no enclosing `span`, the extractor of `apa` returns `false`
instead of a jQuery object, and `extract_cited_references` ends with a
TypeError on `refs.map`. -/
theorem cited_apa_without_link_throws (stringify : JSData → String) (d : Document)
    (h : (d.select "a[title=\"References\"][href=\"#toc\"]").length = 0 ∨
      (jq_parent d (d.select "a[title=\"References\"][href=\"#toc\"]") "span").length = 0) :
    own_get cited_ref_extractors "apa" = some cited_apa ∧
    cited_apa d = CitedResult.jsfalse ∧
    extract_cited_references stringify d (JVal.str "apa") =
      Outcome.throws JSError.TypeError := by
  have hown : own_get cited_ref_extractors "apa" = some cited_apa := by
    simp [own_get, cited_ref_extractors]
  have hf : cited_apa d = CitedResult.jsfalse := by
    unfold cited_apa
    rcases h with h | h
    · simp [h]
    · by_cases h0 : (d.select "a[title=\"References\"][href=\"#toc\"]").length = 0
      · simp [h0]
      · simp [h0, h]
  refine ⟨hown, hf, ?_⟩
  rw [extract_cited_references_own stringify d "apa" cited_apa hown, hf]

theorem cited_apa_without_link_throws_witness :
    extract_cited_references (fun _ => "") doc_empty (JVal.str "apa") =
      Outcome.throws JSError.TypeError ∧
    extract_cited_references (fun _ => "") doc_link_without_span (JVal.str "apa") =
      Outcome.throws JSError.TypeError :=
  ⟨(cited_apa_without_link_throws (fun _ => "") doc_empty (Or.inl (by decide))).2.2,
   (cited_apa_without_link_throws (fun _ => "") doc_link_without_span
      (Or.inr (by decide))).2.2⟩

theorem own_get_mem {α : Type} (k : String) (v : α) :
    ∀ (o : List (String × α)), own_get o k = some v → (k, v) ∈ o := by
  intro o
  induction o with
  | nil => intro h; simp [own_get] at h
  | cons hd tl ih =>
    obtain ⟨k', v'⟩ := hd
    intro h
    by_cases hk : k' = k
    · simp [own_get, hk] at h
      simp [hk, h]
    · simp [own_get, hk] at h
      exact List.mem_cons_of_mem _ (ih h)

theorem cited_extractors_return_jq (d : Document) :
    ∀ p ∈ cited_ref_extractors, p.1 ≠ "apa" → ∃ refs, p.2 d = CitedResult.jq refs := by
  intro p hp hne
  simp only [cited_ref_extractors, List.mem_cons, List.mem_singleton, List.not_mem_nil,
    or_false] at hp
  rcases hp with h | h | h | h | h | h | h | h | h | h | h | h <;> subst h
  all_goals first
    | exact absurd rfl hne
    | exact ⟨_, rfl⟩

theorem cited_select_serialized (stringify : JSData → String) (d : Document) (nm : String)
    (g : Document → CitedResult) (hown : own_get cited_ref_extractors nm = some g)
    (hne : nm ≠ "apa") :
    ∃ refs : JQuery, g d = CitedResult.jq refs ∧
      extract_cited_references stringify d (JVal.str nm) =
        Outcome.ok (JVal.str (stringify (JSData.arr (refs.map (fun n => n.innerHTML))))) := by
  obtain ⟨refs, hrefs⟩ :=
    cited_extractors_return_jq d (nm, g) (own_get_mem nm g _ hown) hne
  refine ⟨refs, hrefs, ?_⟩
  rw [extract_cited_references_own stringify d nm g hown]
  simp only at hrefs
  rw [hrefs]

/-! ## The selector built by `join_attrs` -/

theorem join_attrs_loop_eq (ops : List String) (hops : ops ≠ []) :
    ∀ (attrs : List (String × String)) (idx : Nat) (acc : String),
      join_attrs_loop ops attrs idx acc =
        acc ++ (((attrs.enumFrom idx).map (fun p =>
          attr_fragment p.2.1 (ops.getD (p.1 % ops.length) "") p.2.2)).foldr
            (fun x acc => x ++ acc) "") := by
  intro attrs
  induction attrs with
  | nil =>
    intro idx acc
    simp [join_attrs_loop]
  | cons hd tl ih =>
    obtain ⟨key, val⟩ := hd
    intro idx acc
    have hlen : 0 < ops.length := List.length_pos.mpr hops
    have hlt : idx % ops.length < ops.length := Nat.mod_lt _ hlen
    have hop : (ops.get? (idx % ops.length)).getD "undefined" =
        ops.getD (idx % ops.length) "" := by
      rw [List.get?_eq_get hlt, List.getD_eq_getElem _ _ hlt]
      rfl
    have hq : ("\"]" : String) = "\"" ++ "]" := by decide
    simp only [join_attrs_loop, List.enumFrom_cons, List.map_cons, List.foldr_cons, hop]
    rw [ih (idx + 1)]
    simp only [attr_fragment, hq, String.append_assoc]

/-- C18: for a non-empty operator list `join_attrs` returns the tag followed
by one fragment `[key op "value"]` per attribute, in the order of
`Object.keys` (for attribute names the insertion order), the operator
taken at the position of the attribute modulo the number of operators; with
the operators omitted every operator is `=`; with the attributes omitted or
empty the result is the tag; for the rule of `mit` it is
`meta[name="dc.Publisher"][content^="MIT Press"]`. -/
theorem join_attrs_layout (tag : String) (attrs : List (String × String))
    (ops : List String) (hops : ops ≠ []) :
    join_attrs tag (some attrs) (some ops) = join_attrs_expected tag attrs ops ∧
    join_attrs tag (some attrs) none = join_attrs_expected tag attrs ["="] ∧
    (∀ i, (["="] : List String).getD (i % (["="] : List String).length) "" = "=") ∧
    join_attrs tag none (some ops) = tag ∧
    join_attrs tag (some []) (some ops) = tag ∧
    join_attrs tag none none = tag ∧
    join_attrs "meta" (some [("name", "dc.Publisher"), ("content", "MIT Press")])
      (some ["=", "^="]) = "meta[name=\"dc.Publisher\"][content^=\"MIT Press\"]" := by
  refine ⟨?_, ?_, ?_, ?_, ?_, ?_, by decide⟩
  · simp only [join_attrs, Option.getD_some, join_attrs_expected, List.enum]
    exact join_attrs_loop_eq ops hops attrs 0 tag
  · simp only [join_attrs, Option.getD_some, Option.getD_none, join_attrs_expected, List.enum]
    exact join_attrs_loop_eq ["="] (by simp) attrs 0 tag
  · intro i
    simp [Nat.mod_one]
  · simp [join_attrs, join_attrs_loop]
  · simp [join_attrs, join_attrs_loop]
  · simp [join_attrs, join_attrs_loop]

theorem join_attrs_layout_witness :
    join_attrs "meta" (some [("name", "ncbi_db"), ("content", "pmc")]) (some ["="]) =
      join_attrs_expected "meta" [("name", "ncbi_db"), ("content", "pmc")] ["="] ∧
    join_attrs_expected "meta" [("name", "ncbi_db"), ("content", "pmc")] ["="] =
      "meta[name=\"ncbi_db\"][content=\"pmc\"]" :=
  ⟨(join_attrs_layout "meta" [("name", "ncbi_db"), ("content", "pmc")] ["="]
      (by decide)).1, by decide⟩

/-! ## Matching of literal words -/

theorem lit_run (ic : Bool) :
    ∀ (w : List Char) (p : Nat) (s : List Char),
      Re.run ic (w.foldr (fun c r => Re.seq (Re.chr c) r) Re.eps) (p, s) =
        if starts_with ic w s then [(p + w.length, s.drop w.length)] else [] := by
  intro w
  induction w with
  | nil => intro p s; simp [Re.run, starts_with]
  | cons c w ih =>
    intro p s
    cases s with
    | nil => simp [Re.run, starts_with]
    | cons x xs =>
      by_cases hx : canon ic x = canon ic c
      · simp only [List.foldr_cons, Re.run, hx, if_true, List.flatMap_cons, List.flatMap_nil,
          List.append_nil, ih, starts_with, decide_True, Bool.true_and, List.length_cons,
          List.drop_succ_cons]
        have : p + 1 + w.length = p + (w.length + 1) := by omega
        rw [this]
      · simp [Re.run, hx, starts_with]

theorem starts_with_take (ic : Bool) :
    ∀ (w s : List Char), starts_with ic w s = true →
      (s.take w.length).map (canon ic) = w.map (canon ic) ∧
      s = s.take w.length ++ s.drop w.length ∧ (s.take w.length).length = w.length := by
  intro w
  induction w with
  | nil => intro s _; simp
  | cons c w ih =>
    intro s h
    cases s with
    | nil => simp [starts_with] at h
    | cons x xs =>
      simp only [starts_with, Bool.and_eq_true, decide_eq_true_eq] at h
      obtain ⟨h1, h2, h3⟩ := ih xs h.2
      refine ⟨by simp [h.1, h1], by simp, by simpa using h3⟩

theorem starts_with_append (ic : Bool) :
    ∀ (w s : List Char), starts_with ic w (w ++ s) = true := by
  intro w
  induction w with
  | nil => intro s; simp [starts_with]
  | cons c w ih => intro s; simp [starts_with, ih]

/-! ## The first match of a pattern -/

theorem execFrom_some (r : RegExp) :
    ∀ (s : List Char) (p b e : Nat), r.execFrom p s = some (b, e) →
      ∃ a rest rest', s = a ++ rest ∧ b = p + a.length ∧
        (r.source.run r.ignoreCase (b, rest)).head? = some (e, rest') ∧
        ∀ a' rest'', s = a' ++ rest'' → a'.length < a.length →
          r.source.run r.ignoreCase (p + a'.length, rest'') = [] := by
  intro s
  induction s with
  | nil =>
    intro p b e h
    simp only [RegExp.execFrom, Option.map_eq_some'] at h
    obtain ⟨x, hx, hx2⟩ := h
    obtain ⟨x1, x2⟩ := x
    simp only [Prod.mk.injEq] at hx2
    refine ⟨[], [], x2, rfl, by simp [hx2.1], ?_, ?_⟩
    · rw [← hx2.1, ← hx2.2]; exact hx
    · intro a' _ _ hlt; simp at hlt
  | cons x xs ih =>
    intro p b e h
    cases hh : (r.source.run r.ignoreCase (p, x :: xs)).head? with
    | some m =>
      simp only [RegExp.execFrom, hh, Option.some.injEq, Prod.mk.injEq] at h
      obtain ⟨m1, m2⟩ := m
      refine ⟨[], x :: xs, m2, rfl, by simp [h.1], ?_, ?_⟩
      · rw [← h.1, ← h.2]; exact hh
      · intro a' _ _ hlt; simp at hlt
    | none =>
      simp only [RegExp.execFrom, hh] at h
      obtain ⟨a, rest, rest', h1, h2, h3, h4⟩ := ih (p + 1) b e h
      refine ⟨x :: a, rest, rest', by simp [h1], by simp [h2]; omega, h3, ?_⟩
      intro a' rest'' hs hlt
      cases a' with
      | nil =>
        simp only [List.nil_append] at hs
        rw [← hs]
        simpa using hh
      | cons y a'' =>
        simp only [List.cons_append, List.cons.injEq] at hs
        have := h4 a'' rest'' hs.2 (by simpa using hlt)
        simp only [List.length_cons]
        rw [show p + (a''.length + 1) = p + 1 + a''.length by omega]
        exact this

theorem execFrom_isSome_of_match (r : RegExp) :
    ∀ (a rest : List Char) (p : Nat),
      r.source.run r.ignoreCase (p + a.length, rest) ≠ [] →
      (r.execFrom p (a ++ rest)).isSome = true := by
  intro a
  induction a with
  | nil =>
    intro rest p h
    simp only [List.length_nil, Nat.add_zero] at h
    obtain ⟨m, hm⟩ : ∃ m, (r.source.run r.ignoreCase (p, rest)).head? = some m := by
      cases hr : r.source.run r.ignoreCase (p, rest) with
      | nil => exact absurd hr h
      | cons m _ => exact ⟨m, rfl⟩
    cases rest with
    | nil => simp [RegExp.execFrom, hm]
    | cons x xs => simp [RegExp.execFrom, hm]
  | cons y a ih =>
    intro rest p h
    cases hh : (r.source.run r.ignoreCase (p, y :: (a ++ rest))).head? with
    | some m => simp [RegExp.execFrom, hh]
    | none =>
      have e : r.execFrom p (y :: a ++ rest) = r.execFrom (p + 1) (a ++ rest) := by
        rw [List.cons_append, RegExp.execFrom, hh]
      rw [e]
      apply ih rest (p + 1)
      rw [show p + 1 + a.length = p + (y :: a).length by simp; omega]
      exact h

/-! ## The patterns of the meta scan -/

theorem lit_run_word (ic : Bool) (w : String) (c : Nat × List Char) :
    Re.run ic (Re.lit w) c =
      if starts_with ic w.data c.2 then [(c.1 + w.data.length, c.2.drop w.data.length)]
      else [] := by
  obtain ⟨p, s⟩ := c
  exact lit_run ic w.data p s

theorem run_alt (ic : Bool) (a b : Re) (c : Nat × List Char) :
    Re.run ic (Re.alt a b) c = Re.run ic a c ++ Re.run ic b c := by
  rw [Re.run]

theorem run_seq (ic : Bool) (a b : Re) (c : Nat × List Char) :
    Re.run ic (Re.seq a b) c = (Re.run ic a c).flatMap (fun c' => Re.run ic b c') := by
  rw [Re.run]

theorem run_notAhead (ic : Bool) (a : Re) (c : Nat × List Char) :
    Re.run ic (Re.notAhead a) c = if (Re.run ic a c).isEmpty then [c] else [] := by
  rw [Re.run]

theorem meta_replace_run (ic : Bool) (p : Nat) (s : List Char) :
    Re.run ic meta_replace_re (p, s) =
      (if starts_with ic "DC.".data s then [(p + 3, s.drop 3)] else []) ++
      (if starts_with ic "citation_".data s then [(p + 9, s.drop 9)] else []) := by
  have h1 : "DC.".data.length = 3 := rfl
  have h2 : "citation_".data.length = 9 := rfl
  rw [meta_replace_re, run_alt, lit_run_word, lit_run_word, h1, h2]

theorem meta_test_run_replace (ic : Bool) (p : Nat) (s : List Char)
    (h : Re.run ic meta_test_re (p, s) ≠ []) : Re.run ic meta_replace_re (p, s) ≠ [] := by
  rw [meta_replace_run]
  rw [meta_test_re, run_alt, run_seq, lit_run_word, lit_run_word] at h
  by_cases h1 : starts_with ic "DC.".data s = true
  · simp [h1]
  · by_cases h2 : starts_with ic "citation_".data s = true
    · simp [h2]
    · simp [h1, h2] at h

/-- C15 as stated fails: the name `xDC.title` passes the match pattern, its
field key is `xtitle`, and the name is not a string followed by that key. -/
theorem meta_key_not_a_suffix :
    RegExp.test { source := meta_test_re } "xDC.title" = true ∧
    str_replace "xDC.title" { source := meta_replace_re } = "xtitle" ∧
    (¬ ∃ p : String, "xDC.title" = p ++ "xtitle") ∧
    head_extract_meta { source := meta_test_re } { source := meta_replace_re }
      doc_inner_match = Outcome.ok [("xtitle", ["T"])] := by
  refine ⟨by decide, by decide, ?_, by decide⟩
  rintro ⟨p, hp⟩
  have hd := congrArg String.data hp
  rw [String.data_append] at hd
  have hs : "xtitle".data <:+ "xDC.title".data := ⟨p.data, hd.symm⟩
  exact absurd hs (by decide)

/-- C15, amended: for a name that passes the match pattern of the meta scan
(with or without the `i` flag), the field key is the name with the leftmost
occurrence of the strip pattern removed: the name is `a` followed by `p`
followed by `c`, the key is `a` followed by `c`, `p` is `DC.` or `citation_`
(up to letter case under the `i` flag), and no occurrence starts inside
`a`; the removed part is a prefix when the name starts with it. -/
theorem meta_key_removes_leftmost (ic : Bool) (name : String)
    (h : RegExp.test { source := meta_test_re, ignoreCase := ic } name = true) :
    ∃ a p c : List Char, name.data = a ++ p ++ c ∧
      (str_replace name { source := meta_replace_re, ignoreCase := ic }).data = a ++ c ∧
      (p.map (canon ic) = "DC.".data.map (canon ic) ∨
        p.map (canon ic) = "citation_".data.map (canon ic)) ∧
      (∀ a' rest, name.data = a' ++ rest → a'.length < a.length →
        starts_with ic "DC.".data rest = false ∧
        starts_with ic "citation_".data rest = false) := by
  -- the match pattern matches somewhere, hence so does the strip pattern
  obtain ⟨m, hm⟩ := Option.isSome_iff_exists.mp h
  obtain ⟨a0, rest0, rest0', hs0, hb0, hrun0, _⟩ :=
    execFrom_some { source := meta_test_re, ignoreCase := ic } name.data 0 m.1 m.2 hm
  have hne : Re.run ic meta_replace_re (0 + a0.length, rest0) ≠ [] := by
    apply meta_test_run_replace
    intro hnil
    simp only [Nat.zero_add] at hb0 hnil
    rw [hb0] at hrun0
    simp [hnil] at hrun0
  have hsome := execFrom_isSome_of_match { source := meta_replace_re, ignoreCase := ic }
    a0 rest0 0 hne
  rw [← hs0] at hsome
  obtain ⟨m', hm'⟩ := Option.isSome_iff_exists.mp hsome
  obtain ⟨a, rest, rest', hs, hb, hrun, hleft⟩ :=
    execFrom_some { source := meta_replace_re, ignoreCase := ic } name.data 0 m'.1 m'.2 hm'
  have hkey : str_replace name { source := meta_replace_re, ignoreCase := ic } =
      String.mk (name.data.take m'.1 ++ name.data.drop m'.2) := by
    simp [str_replace, RegExp.exec, hm']
  have hleft' : ∀ a' rest'', name.data = a' ++ rest'' → a'.length < a.length →
      starts_with ic "DC.".data rest'' = false ∧
      starts_with ic "citation_".data rest'' = false := by
    intro a' rest'' h1 h2
    have := hleft a' rest'' h1 h2
    simp only [meta_replace_run] at this
    by_cases c1 : starts_with ic "DC.".data rest'' = true
    · simp [c1] at this
    · by_cases c2 : starts_with ic "citation_".data rest'' = true
      · simp [c2] at this
      · exact ⟨by simpa using c1, by simpa using c2⟩
  simp only [meta_replace_run] at hrun
  simp only [Nat.zero_add] at hb
  by_cases c1 : starts_with ic "DC.".data rest = true
  · obtain ⟨t1, t2, t3⟩ := starts_with_take ic _ _ c1
    have hl : "DC.".data.length = 3 := rfl
    rw [hl] at t1 t2 t3
    simp [c1] at hrun
    refine ⟨a, rest.take 3, rest.drop 3, ?_, ?_, Or.inl t1, hleft'⟩
    · rw [List.append_assoc, ← t2]; exact hs
    · rw [hkey, hb, ← hrun.1, hs]
      simp [List.drop_append, hb]
  · have c2 : starts_with ic "citation_".data rest = true := by
      by_contra c2
      simp [c1, c2] at hrun
    obtain ⟨t1, t2, t3⟩ := starts_with_take ic _ _ c2
    have hl : "citation_".data.length = 9 := rfl
    rw [hl] at t1 t2 t3
    simp [c1, c2] at hrun
    refine ⟨a, rest.take 9, rest.drop 9, ?_, ?_, Or.inr t1, hleft'⟩
    · rw [List.append_assoc, ← t2]; exact hs
    · rw [hkey, hb, ← hrun.1, hs]
      simp [List.drop_append, hb]

theorem meta_key_removes_leftmost_witness :
    ∃ a p c : List Char, "xDC.title".data = a ++ p ++ c ∧
      (str_replace "xDC.title" { source := meta_replace_re, ignoreCase := false }).data =
        a ++ c ∧
      (p.map (canon false) = "DC.".data.map (canon false) ∨
        p.map (canon false) = "citation_".data.map (canon false)) :=
  (meta_key_removes_leftmost false "xDC.title" (by decide)).imp
    (fun _ h => h.imp (fun _ h => h.imp (fun _ h => ⟨h.1, h.2.1, h.2.2.1⟩)))

/-! ## Names that start with `citation_` -/

theorem execFrom_head (r : RegExp) (p : Nat) (s : List Char) (e : Nat × List Char)
    (h : (r.source.run r.ignoreCase (p, s)).head? = some e) :
    r.execFrom p s = some (p, e.1) := by
  cases s <;> simp [RegExp.execFrom, h]

theorem citation_not_dc (ic : Bool) (s : List Char) :
    starts_with ic "DC.".data ("citation_".data ++ s) = false := by
  have h : "citation_".data ++ s = 'c' :: ("itation_".data ++ s) := rfl
  have hd : "DC.".data = 'D' :: "C.".data := rfl
  rw [h, hd, starts_with]
  cases ic <;> simp [canon]

theorem citation_name_key (ic : Bool) (suffix : String)
    (h : starts_with ic "reference".data suffix.data = false) :
    RegExp.test { source := meta_test_re, ignoreCase := ic } ("citation_" ++ suffix) = true ∧
    str_replace ("citation_" ++ suffix) { source := meta_replace_re, ignoreCase := ic } =
      suffix := by
  have hcit := starts_with_append ic "citation_".data suffix.data
  have hdc := citation_not_dc ic suffix.data
  have hl : "citation_".data.length = 9 := rfl
  have hdrop : List.drop 9 ("citation_".data ++ suffix.data) = suffix.data := by
    rw [← hl, List.drop_left]
  constructor
  · have hne : Re.run ic meta_test_re (0 + ([] : List Char).length,
        "citation_".data ++ suffix.data) ≠ [] := by
      rw [meta_test_re, run_alt, run_seq, lit_run_word, lit_run_word]
      simp only [hdc, hcit, hl, hdrop, if_true, Bool.false_eq_true, if_false,
        List.nil_append, List.flatMap_cons, List.flatMap_nil, List.append_nil,
        run_notAhead, lit_run_word, h, List.isEmpty_nil]
      simp
    have := execFrom_isSome_of_match { source := meta_test_re, ignoreCase := ic } []
      ("citation_".data ++ suffix.data) 0 hne
    simpa [RegExp.test, RegExp.exec, String.data_append] using this
  · have hrun : (Re.run ic meta_replace_re (0, "citation_".data ++ suffix.data)).head? =
        some (9, suffix.data) := by
      rw [meta_replace_run, hdc, hcit, hdrop]
      rfl
    have hex := execFrom_head { source := meta_replace_re, ignoreCase := ic } 0
      ("citation_".data ++ suffix.data) (9, suffix.data) hrun
    simp only [str_replace, RegExp.exec, String.data_append, hex, List.take_zero,
      List.nil_append, hdrop]

/-- C16 as stated fails: for biomed, pubmed and mit the patterns carry the
`i` flag; the suffix `Reference` does not start with `reference`, yet the node
(citation_Reference, X) contributes nothing to their head reference. -/
theorem capital_reference_not_contributed :
    starts_with false "reference".data "Reference".data = false ∧
    (own_get head_ref_extractors "biomed").map (fun f => f doc_capital_reference) =
      some (Outcome.ok []) ∧
    (own_get head_ref_extractors "pubmed").map (fun f => f doc_capital_reference) =
      some (Outcome.ok []) ∧
    (own_get head_ref_extractors "mit").map (fun f => f doc_capital_reference) =
      some (Outcome.ok []) ∧
    head_extract_meta { source := meta_test_re, ignoreCase := true }
      { source := meta_replace_re, ignoreCase := true } doc_capital_reference =
        Outcome.ok [] := by
  decide

/-- C16, amended: with the patterns of the meta scan, with or without the
`i` flag, a node named exactly `citation_reference` is dropped (the result is
the one of the page without it); a node named `citation_` followed by a
suffix that does not start with `reference`, letter case disregarded under
the `i` flag, has its content in the list under that suffix, on every page
none of whose stripped names is a member of `Object.prototype`. -/
theorem citation_suffix_is_key (ic : Bool) (d : Document) :
    RegExp.test { source := meta_test_re, ignoreCase := ic } "citation_reference" = false ∧
    (∀ (d' : Document) (pre post : List Node) (n : Node),
      n.name = "citation_reference" →
      d.select "meta[name]" = pre ++ n :: post →
      d'.select "meta[name]" = pre ++ post →
      head_extract_meta { source := meta_test_re, ignoreCase := ic }
          { source := meta_replace_re, ignoreCase := ic } d =
        head_extract_meta { source := meta_test_re, ignoreCase := ic }
          { source := meta_replace_re, ignoreCase := ic } d') ∧
    (∀ (n : Node) (suffix : String),
      n ∈ d.select "meta[name]" →
      n.name = "citation_" ++ suffix →
      starts_with ic "reference".data suffix.data = false →
      (∀ m ∈ d.select "meta[name]",
        RegExp.test { source := meta_test_re, ignoreCase := ic } m.name = true →
        str_replace m.name { source := meta_replace_re, ignoreCase := ic } ∉
          Object_prototype_keys) →
      ∃ info vs,
        head_extract_meta { source := meta_test_re, ignoreCase := ic }
          { source := meta_replace_re, ignoreCase := ic } d = Outcome.ok info ∧
        own_get info suffix = some vs ∧ n.content ∈ vs) := by
  have hA : RegExp.test { source := meta_test_re, ignoreCase := ic } "citation_reference" =
      false := by
    cases ic <;> decide
  refine ⟨hA, ?_, ?_⟩
  · intro d' pre post n hn hd hd'
    simp [head_extract_meta, hd, hd', List.filter_append, List.filter_cons, hn, hA]
  · intro n suffix hmem hname hsuffix hsafe
    obtain ⟨htest, hkey⟩ := citation_name_key ic suffix hsuffix
    obtain ⟨info, hinfo, hget⟩ := head_extract_meta_grouped
      { source := meta_test_re, ignoreCase := ic }
      { source := meta_replace_re, ignoreCase := ic } d hsafe
    have hin : n.content ∈ meta_values { source := meta_test_re, ignoreCase := ic }
        { source := meta_replace_re, ignoreCase := ic } (d.select "meta[name]") suffix := by
      simp only [meta_values, List.mem_map, List.mem_filter, Bool.and_eq_true,
        decide_eq_true_eq]
      exact ⟨n, ⟨hmem, by rw [hname]; exact htest, by rw [hname]; exact hkey⟩, rfl⟩
    have hexp := hget suffix
    rw [meta_expected] at hexp
    cases hv : meta_values { source := meta_test_re, ignoreCase := ic }
        { source := meta_replace_re, ignoreCase := ic } (d.select "meta[name]") suffix with
    | nil => rw [hv] at hin; simp at hin
    | cons v vs =>
      rw [hv] at hexp hin
      exact ⟨info, v :: vs, hinfo, hexp, hin⟩

theorem citation_suffix_is_key_witness :
    ∃ info vs,
      head_extract_meta { source := meta_test_re, ignoreCase := false }
        { source := meta_replace_re, ignoreCase := false } doc_reference_and_title =
          Outcome.ok info ∧
      own_get info "title" = some vs ∧ "T" ∈ vs :=
  (citation_suffix_is_key false doc_reference_and_title).2.2
    { id := 1, name := "citation_title", content := "T" } "title"
    (by decide) (by decide) (by decide) (by decide)

end Citelet
